import Mathlib

/-!
# Verification of the Verilog circuit visualizer's core semantics

This file gives a shallow embedding of the structural extractor, the level
analyzer and the tri-state logic engine of `verilog_visualizer.py`, and proves
properties of the embedded definitions.  Python dictionaries are modelled as
association lists (first match wins on lookup, insertion order preserved),
`None`-returning or error paths as `Option`, and the bounded `while` loops as
fuel-indexed recursion with the source's iteration budgets.
-/

set_option maxRecDepth 4000

namespace VV

/-- Tri-state logic value, from `class LogicValue(Enum)`:
`ZERO = "0"`, `ONE = "1"`, `X = "X"`. -/
inductive LogicValue where
  | ZERO
  | ONE
  | X
deriving DecidableEq, Repr

instance : Fintype LogicValue where
  elems := {LogicValue.ZERO, LogicValue.ONE, LogicValue.X}
  complete := by intro x; cases x <;> decide

/-- `Gate` dataclass.  The `bit_width` field (always 1, never read by the
simulator) is omitted; `port_map` records named connections. -/
structure Gate where
  name : String
  gate_type : String
  inputs : List String
  outputs : List String
  port_map : List (String × String)
deriving DecidableEq, Repr

/-- `Module` dataclass.  A `Net` object only contributes its mutable `value`
to the modelled operations (its `bit_width`, `driver` and `loads` fields are
never read by the simulator), so `nets : Dict[str, Net]` is modelled as an
association list from net name to the stored `LogicValue`.  The unused
`submodules` field is omitted. -/
structure Module where
  name : String
  ports : List (String × String)
  gates : List Gate
  nets : List (String × LogicValue)
deriving DecidableEq, Repr

/-! ## Tri-state primitive evaluators (`LogicSimulator._simulate_*`) -/

/-- `LogicSimulator._simulate_and`. -/
def simulate_and (inputs : List LogicValue) : List LogicValue :=
  if LogicValue.ZERO ∈ inputs then [LogicValue.ZERO]
  else if LogicValue.X ∈ inputs then [LogicValue.X]
  else [LogicValue.ONE]

/-- `LogicSimulator._simulate_or`. -/
def simulate_or (inputs : List LogicValue) : List LogicValue :=
  if LogicValue.ONE ∈ inputs then [LogicValue.ONE]
  else if LogicValue.X ∈ inputs then [LogicValue.X]
  else [LogicValue.ZERO]

/-- `LogicSimulator._simulate_not`. -/
def simulate_not (inputs : List LogicValue) : List LogicValue :=
  match inputs with
  | [] => [LogicValue.X]
  | v :: _ =>
    match v with
    | LogicValue.ZERO => [LogicValue.ONE]
    | LogicValue.ONE => [LogicValue.ZERO]
    | LogicValue.X => [LogicValue.X]

/-- `LogicSimulator._simulate_nand`: `NOT` of the `AND` result. -/
def simulate_nand (inputs : List LogicValue) : List LogicValue :=
  simulate_not [(simulate_and inputs).headD LogicValue.X]

/-- `LogicSimulator._simulate_nor`: `NOT` of the `OR` result. -/
def simulate_nor (inputs : List LogicValue) : List LogicValue :=
  simulate_not [(simulate_or inputs).headD LogicValue.X]

/-- `LogicSimulator._simulate_xor`: `X` when fewer than two inputs or any
input is `X`; otherwise parity of the number of `ONE`s. -/
def simulate_xor (inputs : List LogicValue) : List LogicValue :=
  if inputs.length < 2 then [LogicValue.X]
  else if LogicValue.X ∈ inputs then [LogicValue.X]
  else if inputs.count LogicValue.ONE % 2 = 1 then [LogicValue.ONE]
  else [LogicValue.ZERO]

/-- `LogicSimulator._simulate_xnor`: `NOT` of the `XOR` result. -/
def simulate_xnor (inputs : List LogicValue) : List LogicValue :=
  simulate_not [(simulate_xor inputs).headD LogicValue.X]

/-! ## Compound gate evaluators -/

/-- `LogicSimulator._simulate_full_adder`: output vector `[COUT, SUM]`. -/
def simulate_full_adder (inputs : List LogicValue) : List LogicValue :=
  match inputs with
  | a :: b :: ci :: _ =>
    let sum_result := (simulate_xor [a, b, ci]).headD LogicValue.X
    let ab := (simulate_and [a, b]).headD LogicValue.X
    let bci := (simulate_and [b, ci]).headD LogicValue.X
    let aci := (simulate_and [a, ci]).headD LogicValue.X
    let carry_out := (simulate_or [ab, bci, aci]).headD LogicValue.X
    [carry_out, sum_result]
  | _ => [LogicValue.X, LogicValue.X]

/-- `LogicSimulator._simulate_half_adder`: output vector `[COUT, SUM]`. -/
def simulate_half_adder (inputs : List LogicValue) : List LogicValue :=
  match inputs with
  | a :: b :: _ =>
    let sum_result := (simulate_xor [a, b]).headD LogicValue.X
    let carry_out := (simulate_and [a, b]).headD LogicValue.X
    [carry_out, sum_result]
  | _ => [LogicValue.X, LogicValue.X]

/-- `LogicSimulator._simulate_half_subtractor`: output vector `[BOUT, DIFF]`. -/
def simulate_half_subtractor (inputs : List LogicValue) : List LogicValue :=
  match inputs with
  | a :: b :: _ =>
    let diff_result := (simulate_xor [a, b]).headD LogicValue.X
    let not_a := (simulate_not [a]).headD LogicValue.X
    let borrow_out := (simulate_and [not_a, b]).headD LogicValue.X
    [borrow_out, diff_result]
  | _ => [LogicValue.X, LogicValue.X]

/-- `LogicSimulator._simulate_full_subtractor`: output vector `[BOUT, DIFF]`. -/
def simulate_full_subtractor (inputs : List LogicValue) : List LogicValue :=
  match inputs with
  | a :: b :: bi :: _ =>
    let diff_result := (simulate_xor [a, b, bi]).headD LogicValue.X
    let not_a := (simulate_not [a]).headD LogicValue.X
    let not_a_and_b := (simulate_and [not_a, b]).headD LogicValue.X
    let not_a_and_bi := (simulate_and [not_a, bi]).headD LogicValue.X
    let b_and_bi := (simulate_and [b, bi]).headD LogicValue.X
    let borrow_out := (simulate_or [not_a_and_b, not_a_and_bi, b_and_bi]).headD LogicValue.X
    [borrow_out, diff_result]
  | _ => [LogicValue.X, LogicValue.X]

/-- `LogicSimulator._simulate_mux2`. -/
def simulate_mux2 (inputs : List LogicValue) : List LogicValue :=
  match inputs with
  | a :: b :: s :: _ =>
    let not_s := (simulate_not [s]).headD LogicValue.X
    let not_s_and_a := (simulate_and [not_s, a]).headD LogicValue.X
    let s_and_b := (simulate_and [s, b]).headD LogicValue.X
    [(simulate_or [not_s_and_a, s_and_b]).headD LogicValue.X]
  | _ => [LogicValue.X]

/-- `LogicSimulator._simulate_mux4`. -/
def simulate_mux4 (inputs : List LogicValue) : List LogicValue :=
  match inputs with
  | a :: b :: c :: d :: s1 :: s0 :: _ =>
    let not_s1 := (simulate_not [s1]).headD LogicValue.X
    let not_s0 := (simulate_not [s0]).headD LogicValue.X
    let t0 := (simulate_and [not_s1, not_s0, a]).headD LogicValue.X
    let t1 := (simulate_and [not_s1, s0, b]).headD LogicValue.X
    let t2 := (simulate_and [s1, not_s0, c]).headD LogicValue.X
    let t3 := (simulate_and [s1, s0, d]).headD LogicValue.X
    [(simulate_or [t0, t1, t2, t3]).headD LogicValue.X]
  | _ => [LogicValue.X]

/-! ## Specification-side definitions (following the wording of §4.3 of the
specification, used to compare the code's evaluators against the spec's
formulas) -/

/-- Spec §4.3: `AND`: 0 if any input is 0; else X if any input is X; else 1. -/
def spec_and (l : List LogicValue) : LogicValue :=
  if LogicValue.ZERO ∈ l then LogicValue.ZERO
  else if LogicValue.X ∈ l then LogicValue.X
  else LogicValue.ONE

/-- Spec §4.3: `OR`: 1 if any input is 1; else X if any input is X; else 0. -/
def spec_or (l : List LogicValue) : LogicValue :=
  if LogicValue.ONE ∈ l then LogicValue.ONE
  else if LogicValue.X ∈ l then LogicValue.X
  else LogicValue.ZERO

/-- Spec §4.3: `NOT`: invert 0↔1, X↦X. -/
def spec_not : LogicValue → LogicValue
  | LogicValue.ZERO => LogicValue.ONE
  | LogicValue.ONE => LogicValue.ZERO
  | LogicValue.X => LogicValue.X

/-- Spec §4.3: `XOR`: X if any input X (requires ≥ 2 inputs, else X); else 1
iff an odd count of 1s. -/
def spec_xor (l : List LogicValue) : LogicValue :=
  if l.length < 2 ∨ LogicValue.X ∈ l then LogicValue.X
  else if l.count LogicValue.ONE % 2 = 1 then LogicValue.ONE
  else LogicValue.ZERO

/-- Injection of a boolean bit into a tri-state value (for truth tables). -/
def toLV (b : Bool) : LogicValue := if b then LogicValue.ONE else LogicValue.ZERO

/-! ## Claim C1 -/

/-- **C1.** For every list of tri-state inputs the primitive gate evaluators
return exactly the §4.3 truth table: AND is 0 if any input is 0, else X if any
input is X, else 1; OR is 1 if any input is 1, else X if any input is X, else
0; NOT inverts 0 and 1 and maps X to X; NAND and NOR are NOT of AND and OR;
XOR is X if any input is X or fewer than 2 inputs are given, else 1 iff an odd
number of inputs are 1; XNOR is NOT of XOR. -/
theorem C1_primitive_truth_tables (inputs : List LogicValue) :
    (simulate_and inputs = [LogicValue.ZERO] ↔ LogicValue.ZERO ∈ inputs) ∧
    (simulate_and inputs = [LogicValue.X] ↔
      (LogicValue.ZERO ∉ inputs ∧ LogicValue.X ∈ inputs)) ∧
    (simulate_and inputs = [LogicValue.ONE] ↔
      (LogicValue.ZERO ∉ inputs ∧ LogicValue.X ∉ inputs)) ∧
    (simulate_or inputs = [LogicValue.ONE] ↔ LogicValue.ONE ∈ inputs) ∧
    (simulate_or inputs = [LogicValue.X] ↔
      (LogicValue.ONE ∉ inputs ∧ LogicValue.X ∈ inputs)) ∧
    (simulate_or inputs = [LogicValue.ZERO] ↔
      (LogicValue.ONE ∉ inputs ∧ LogicValue.X ∉ inputs)) ∧
    simulate_not [LogicValue.ZERO] = [LogicValue.ONE] ∧
    simulate_not [LogicValue.ONE] = [LogicValue.ZERO] ∧
    simulate_not [LogicValue.X] = [LogicValue.X] ∧
    simulate_nand inputs = simulate_not (simulate_and inputs) ∧
    simulate_nor inputs = simulate_not (simulate_or inputs) ∧
    (simulate_xor inputs = [LogicValue.X] ↔
      (inputs.length < 2 ∨ LogicValue.X ∈ inputs)) ∧
    (simulate_xor inputs = [LogicValue.ONE] ↔
      (2 ≤ inputs.length ∧ LogicValue.X ∉ inputs ∧
        inputs.count LogicValue.ONE % 2 = 1)) ∧
    (simulate_xor inputs = [LogicValue.ZERO] ↔
      (2 ≤ inputs.length ∧ LogicValue.X ∉ inputs ∧
        inputs.count LogicValue.ONE % 2 = 0)) ∧
    simulate_xnor inputs = simulate_not (simulate_xor inputs) := by
  refine ⟨?_, ?_, ?_, ?_, ?_, ?_, rfl, rfl, rfl, ?_, ?_, ?_, ?_, ?_, ?_⟩ <;>
    simp only [simulate_and, simulate_or, simulate_xor, simulate_nand,
      simulate_nor, simulate_xnor, simulate_not] <;>
    split_ifs <;> simp_all

/-- Witness for C1 at a concrete input. -/
theorem C1_primitive_truth_tables_witness :
    simulate_and [LogicValue.ONE, LogicValue.ZERO] = [LogicValue.ZERO] :=
  (C1_primitive_truth_tables [LogicValue.ONE, LogicValue.ZERO]).1.mpr (by decide)

/-! ## Claim C2 -/

/-- **C2.** For every triple of tri-state inputs `(a, b, cin)` the full-adder
evaluator computes `sum = XOR(a,b,cin)` and
`carry = OR(AND(a,b), AND(b,cin), AND(a,cin))` in terms of the tri-state
primitives (output vector `[carry, sum]`); analogously the half-adder computes
`sum = XOR(a,b)`, `carry = AND(a,b)`; the half-subtractor
`diff = XOR(a,b)`, `borrow = AND(NOT a, b)`; and the full-subtractor
`diff = XOR(a,b,bin)`,
`borrow = OR(AND(NOT a, b), AND(NOT a, bin), AND(b, bin))`.  Moreover the
exhaustive 0/1 truth tables (8 rows for the full adder/subtractor, 4 rows for
the half adder/subtractor) match the canonical arithmetic tables. -/
theorem C2_compound_adders_subtractors :
    (∀ a b cin : LogicValue,
      simulate_full_adder [a, b, cin] =
        [spec_or [spec_and [a, b], spec_and [b, cin], spec_and [a, cin]],
          spec_xor [a, b, cin]]) ∧
    (∀ a b : LogicValue,
      simulate_half_adder [a, b] = [spec_and [a, b], spec_xor [a, b]]) ∧
    (∀ a b : LogicValue,
      simulate_half_subtractor [a, b] =
        [spec_and [spec_not a, b], spec_xor [a, b]]) ∧
    (∀ a b bin : LogicValue,
      simulate_full_subtractor [a, b, bin] =
        [spec_or [spec_and [spec_not a, b], spec_and [spec_not a, bin],
            spec_and [b, bin]],
          spec_xor [a, b, bin]]) ∧
    (∀ a b c : Bool,
      simulate_full_adder [toLV a, toLV b, toLV c] =
        [toLV (decide (2 ≤ a.toNat + b.toNat + c.toNat)),
          toLV (decide ((a.toNat + b.toNat + c.toNat) % 2 = 1))]) ∧
    (∀ a b : Bool,
      simulate_half_adder [toLV a, toLV b] =
        [toLV (a && b), toLV (decide ((a.toNat + b.toNat) % 2 = 1))]) ∧
    (∀ a b : Bool,
      simulate_half_subtractor [toLV a, toLV b] =
        [toLV (!a && b), toLV (decide ((a.toNat + b.toNat) % 2 = 1))]) ∧
    (∀ a b c : Bool,
      simulate_full_subtractor [toLV a, toLV b, toLV c] =
        [toLV (decide (a.toNat < b.toNat + c.toNat)),
          toLV (decide ((a.toNat + b.toNat + c.toNat) % 2 = 1))]) := by
  refine ⟨?_, ?_, ?_, ?_, ?_, ?_, ?_, ?_⟩ <;> decide

/-! ## Net maps

`all_nets : Dict[str, Net]` is modelled as an association list from net name
to the net's current value; lookup returns the first match, updates rewrite
matching entries in place, and fresh keys are appended (Python dict
insertion-order semantics). -/

abbrev NetMap := List (String × LogicValue)

/-- Dictionary lookup (`all_nets[k].value` / `k in all_nets`). -/
def lookupNet : NetMap → String → Option LogicValue
  | [], _ => none
  | p :: rest, k => if p.1 = k then some p.2 else lookupNet rest k

/-- `k in all_nets`. -/
def containsNet (m : NetMap) (k : String) : Bool :=
  (lookupNet m k).isSome

/-- In-place value update `all_nets[k].value = v` (key must already exist;
rewrites every entry with that key, which is unique in a dict). -/
def setNet : NetMap → String → LogicValue → NetMap
  | [], _, _ => []
  | p :: rest, k, v => (if p.1 = k then (p.1, v) else p) :: setNet rest k v

/-- `dict[k] = v`: update in place when present, else append. -/
def dictSet (m : NetMap) (k : String) (v : LogicValue) : NetMap :=
  if containsNet m k then setNet m k v else m ++ [(k, v)]

/-- `if k not in all_nets: all_nets[k] = Net(name=k, value=v)`. -/
def insertFresh (m : NetMap) (k : String) (v : LogicValue) : NetMap :=
  if containsNet m k then m else m ++ [(k, v)]

/-! ## Gate evaluation and the propagation update rule -/

/-- Input-value gathering shared by `_simulate_gate`: a net missing from
`all_nets` reads as `ZERO`. -/
def getInputValues (g : Gate) (nets : NetMap) : List LogicValue :=
  g.inputs.map (fun n => (lookupNet nets n).getD LogicValue.ZERO)

/-- `LogicSimulator._simulate_gate`: dispatch on the gate-type tag; unknown
tags fall back to AND of the inputs when any exist, else an all-zero vector
of the gate's output arity. -/
def simulate_gate (g : Gate) (nets : NetMap) : List LogicValue :=
  let input_values := getInputValues g nets
  if g.gate_type = "and" then simulate_and input_values
  else if g.gate_type = "or" then simulate_or input_values
  else if g.gate_type = "not" then simulate_not input_values
  else if g.gate_type = "nand" then simulate_nand input_values
  else if g.gate_type = "nor" then simulate_nor input_values
  else if g.gate_type = "xor" then simulate_xor input_values
  else if g.gate_type = "xnor" then simulate_xnor input_values
  else if g.gate_type = "fa" then simulate_full_adder input_values
  else if g.gate_type = "ha" then simulate_half_adder input_values
  else if g.gate_type = "fs" then simulate_full_subtractor input_values
  else if g.gate_type = "hs" then simulate_half_subtractor input_values
  else if g.gate_type = "mux" ∨ g.gate_type = "mux2" then simulate_mux2 input_values
  else if g.gate_type = "mux4" then simulate_mux4 input_values
  else if g.gate_type = "complex" then simulate_and input_values
  else if input_values ≠ [] then simulate_and input_values
  else List.replicate g.outputs.length LogicValue.ZERO

/-- The per-output update rule shared verbatim by `_simulate_module` and
`simulate_by_level`: write the new value iff it is not `X` or the old value
is `X`; progress is recorded when a written value actually changed. -/
def updateOneOutput (nets : NetMap) (progress : Bool) (output_net : String)
    (new_value : LogicValue) : NetMap × Bool :=
  match lookupNet nets output_net with
  | none => (nets, progress)
  | some old_value =>
    if new_value ≠ LogicValue.X then
      (setNet nets output_net new_value,
        if old_value ≠ new_value then true else progress)
    else if old_value = LogicValue.X then
      (setNet nets output_net new_value, progress)
    else (nets, progress)

/-- The `for i, output_net in enumerate(gate.outputs)` loop: pairs beyond
either list's length are skipped (`i < len(output_values)` / exhausted
outputs). -/
def updateGateOutputs (outputs : List String) (vals : List LogicValue)
    (nets : NetMap) (progress : Bool) : NetMap × Bool :=
  (outputs.zip vals).foldl (fun acc p => updateOneOutput acc.1 acc.2 p.1 p.2)
    (nets, progress)

/-- One gate recomputation: evaluate the gate on the current nets, then apply
the update rule to its outputs in positional order. -/
def simGateStep (g : Gate) (nets : NetMap) (progress : Bool) : NetMap × Bool :=
  updateGateOutputs g.outputs (simulate_gate g nets) nets progress

/-- One sweep of `_simulate_module`: every gate of the module recomputes in
list order; the returned flag reports whether any net value changed. -/
def modulePass (gates : List Gate) (nets : NetMap) : NetMap × Bool :=
  gates.foldl (fun acc g => simGateStep g acc.1 acc.2) (nets, false)

/-- The bounded convergence loop of `_simulate_module` (budget 20). -/
def moduleConverge : Nat → List Gate → NetMap → NetMap
  | 0, _, nets => nets
  | fuel + 1, gates, nets =>
    let r := modulePass gates nets
    if r.2 then moduleConverge fuel gates r.1 else r.1

/-- `LogicSimulator._simulate_module`. -/
def simulate_module (m : Module) (nets : NetMap) : NetMap :=
  moduleConverge 20 m.gates nets

/-! ## Full and staged simulation -/

/-- Add `X`-valued nets for every gate input/output not already present. -/
def addGateNets (nets : NetMap) (g : Gate) : NetMap :=
  let n1 := g.inputs.foldl (fun a n => insertFresh a n LogicValue.X) nets
  g.outputs.foldl (fun a n => insertFresh a n LogicValue.X) n1

/-- The initialization shared by `simulate` and `simulate_by_level`:
`all_nets.update(module.nets)` for every module (later modules override
earlier ones on a shared name, mirroring the shared-`Net`-object dict), then
implicit creation of gate-referenced nets with value `X`. -/
def initAllNets (modules : List Module) : NetMap :=
  let base := modules.foldl
    (fun acc m => m.nets.foldl (fun a p => dictSet a p.1 p.2) acc) []
  modules.foldl (fun acc m => m.gates.foldl addGateNets acc) base

/-- Apply the caller's primary-input assignment (only to existing nets). -/
def applyInputs (nets : NetMap)
    (input_values : List (String × LogicValue)) : NetMap :=
  input_values.foldl
    (fun a p => if containsNet a p.1 then setNet a p.1 p.2 else a) nets

/-- `LogicSimulator.simulate` up to (but excluding) the final X→0 coercion:
initialization, input assignment, then 5 whole-circuit passes each running
every module's bounded convergence. -/
def simulate_core (modules : List Module)
    (input_values : List (String × LogicValue)) : NetMap :=
  let nets0 := applyInputs (initAllNets modules) input_values
  (List.range 5).foldl
    (fun acc _ => modules.foldl (fun a m => simulate_module m a) acc) nets0

/-- The final display coercion of `simulate`: any net still `X` becomes
`ZERO`. -/
def coerceX (nets : NetMap) : NetMap :=
  nets.map (fun p => if p.2 = LogicValue.X then (p.1, LogicValue.ZERO) else p)

/-- In-place mutation of the `Net` objects: `all_nets` holds, for each name,
the `Net` object of the *last* module declaring that name (dict `update`
overwrites), so only that module's stored value is rewritten to the final
value; earlier same-named declarations and implicitly created nets are
untouched. -/
def writeback (final : NetMap) : List Module → List Module
  | [] => []
  | m :: rest =>
    { m with nets := m.nets.map (fun p =>
        if rest.any (fun m2 => m2.nets.any (fun q => q.1 == p.1)) then p
        else (p.1, (lookupNet final p.1).getD p.2)) } :: writeback final rest

/-- `LogicSimulator.simulate`: returns the final value map and the modules as
left behind by the in-place `Net.value` mutations (including the coercion). -/
def simulate (modules : List Module)
    (input_values : List (String × LogicValue)) : NetMap × List Module :=
  let final := coerceX (simulate_core modules input_values)
  (final, writeback final modules)

/-! ## Gate depths (`calculate_gate_depths`) -/

/-- Depth maps (`net_depths` / `gate_depths`), as partial functions. -/
abbrev DepthMap := String → Option Nat

/-- Pointwise dictionary write for a depth map. -/
def updateDepth (f : DepthMap) (k : String) (d : Nat) : DepthMap :=
  fun n => if n = k then some d else f n

/-- Seeding: every port with direction `input`, across all modules, gets net
depth 0. -/
def seedNetDepths (modules : List Module) : DepthMap :=
  modules.foldl
    (fun nd m => m.ports.foldl
      (fun nd p => if p.2 = "input" then updateDepth nd p.1 0 else nd) nd)
    (fun _ => none)

/-- The `for input_net in gate.inputs` collection loop: all input depths, in
order, or `none` as soon as one is unknown. -/
def collectDepths (nd : DepthMap) : List String → Option (List Nat)
  | [] => some []
  | n :: rest =>
    match nd n with
    | none => none
    | some v =>
      match collectDepths nd rest with
      | none => none
      | some vs => some (v :: vs)

/-- One gate of a depth pass: an unassigned gate whose inputs all have known
depths (and has at least one input) is assigned `max(input depths) + 1`,
every output net inherits that depth, and progress is recorded. -/
def depthStep : DepthMap × DepthMap × Bool → Gate → DepthMap × DepthMap × Bool
  | (nd, gd, progress), g =>
    if (gd g.name).isSome then (nd, gd, progress)
    else
      match collectDepths nd g.inputs with
      | none => (nd, gd, progress)
      | some [] => (nd, gd, progress)
      | some (d0 :: ds) =>
        let gate_depth := ds.foldl Nat.max d0 + 1
        (g.outputs.foldl (fun nd o => updateDepth nd o gate_depth) nd,
          updateDepth gd g.name gate_depth, true)

/-- One full pass over the gate scan order. -/
def depthPass (order : List Gate) (nd gd : DepthMap) :
    DepthMap × DepthMap × Bool :=
  order.foldl depthStep (nd, gd, false)

/-- The bounded iteration (budget 100), stopping at the first pass that makes
no progress. -/
def depthsIter : Nat → List Gate → DepthMap × DepthMap → DepthMap × DepthMap
  | 0, _, s => s
  | fuel + 1, order, s =>
    let r := depthPass order s.1 s.2
    if r.2.2 then depthsIter fuel order (r.1, r.2.1) else (r.1, r.2.1)

/-- `calculate_gate_depths` parametrized by the gate scan order. -/
def runDepths (modules : List Module) (order : List Gate) :
    DepthMap × DepthMap :=
  depthsIter 100 order (seedNetDepths modules, fun _ => none)

/-- `LogicSimulator.calculate_gate_depths`: the scan order is every module's
gates in module order. -/
def calculate_gate_depths (modules : List Module) : DepthMap :=
  (runDepths modules (modules.map Module.gates).flatten).2

/-! ## Staged (level-bounded) simulation -/

/-- One sweep of `simulate_by_level`: only gates whose depth is known and
`≤ max_level` recompute (`gate_depths.get(name, inf)`). -/
def levelPass (modules : List Module) (gate_depths : DepthMap)
    (max_level : Nat) (nets : NetMap) : NetMap × Bool :=
  modules.foldl
    (fun acc m => m.gates.foldl
      (fun a g =>
        match gate_depths g.name with
        | some d => if d ≤ max_level then simGateStep g a.1 a.2 else a
        | none => a) acc)
    (nets, false)

/-- The bounded iteration of `simulate_by_level` (budget 20). -/
def levelIter : Nat → List Module → DepthMap → Nat → NetMap → NetMap
  | 0, _, _, _, nets => nets
  | fuel + 1, modules, gd, max_level, nets =>
    let r := levelPass modules gd max_level nets
    if r.2 then levelIter fuel modules gd max_level r.1 else r.1

/-- `LogicSimulator.simulate_by_level`: identical initialization to
`simulate`, level-filtered sweeps, and *no* end-of-run X→0 coercion. -/
def simulate_by_level (modules : List Module)
    (input_values : List (String × LogicValue)) (max_level : Nat) :
    NetMap × List Module :=
  let nets0 := applyInputs (initAllNets modules) input_values
  let gd := calculate_gate_depths modules
  let final := levelIter 20 modules gd max_level nets0
  (final, writeback final modules)

/-! ## Lookup/update lemmas -/

theorem lookupNet_setNet_self {m : NetMap} {k : String} {old : LogicValue}
    (v : LogicValue) (h : lookupNet m k = some old) :
    lookupNet (setNet m k v) k = some v := by
  induction m with
  | nil => simp [lookupNet] at h
  | cons p rest ih =>
    show lookupNet ((if p.1 = k then (p.1, v) else p) :: setNet rest k v) k =
      some v
    by_cases hp : p.1 = k
    · rw [if_pos hp]
      show (if p.1 = k then some v else lookupNet (setNet rest k v) k) = some v
      rw [if_pos hp]
    · rw [if_neg hp]
      show (if p.1 = k then some p.2 else lookupNet (setNet rest k v) k) =
        some v
      rw [if_neg hp]
      have h' : lookupNet rest k = some old := by
        have hcons : lookupNet (p :: rest) k = lookupNet rest k := by
          show (if p.1 = k then some p.2 else lookupNet rest k) = _
          rw [if_neg hp]
        rw [← hcons]; exact h
      exact ih h'

theorem lookupNet_setNet_ne {m : NetMap} {k k' : String} (v : LogicValue)
    (h : k' ≠ k) : lookupNet (setNet m k v) k' = lookupNet m k' := by
  induction m with
  | nil => rfl
  | cons p rest ih =>
    show lookupNet ((if p.1 = k then (p.1, v) else p) :: setNet rest k v) k' =
      lookupNet (p :: rest) k'
    by_cases hp : p.1 = k
    · rw [if_pos hp]
      have hne : ¬(p.1 = k') := fun hh => h (by rw [← hh, hp])
      show (if p.1 = k' then some v else lookupNet (setNet rest k v) k') = _
      rw [if_neg hne]
      show _ = (if p.1 = k' then some p.2 else lookupNet rest k')
      rw [if_neg hne]
      exact ih
    · rw [if_neg hp]
      show (if p.1 = k' then some p.2 else lookupNet (setNet rest k v) k') =
        (if p.1 = k' then some p.2 else lookupNet rest k')
      by_cases hk : p.1 = k'
      · rw [if_pos hk, if_pos hk]
      · rw [if_neg hk, if_neg hk]
        exact ih

/-- "The net holds a concrete (non-`X`) value." -/
def nonXAt (nets : NetMap) (k : String) : Prop :=
  ∃ w, lookupNet nets k = some w ∧ w ≠ LogicValue.X

theorem updateOneOutput_pres {nets : NetMap} {k : String}
    (progress : Bool) (o : String) (nv : LogicValue)
    (h : nonXAt nets k) : nonXAt (updateOneOutput nets progress o nv).1 k := by
  obtain ⟨w, hw, hwx⟩ := h
  cases ho : lookupNet nets o with
  | none =>
    have hred : updateOneOutput nets progress o nv = (nets, progress) := by
      unfold updateOneOutput; rw [ho]
    rw [hred]
    exact ⟨w, hw, hwx⟩
  | some old =>
    have hred : updateOneOutput nets progress o nv =
        (if nv ≠ LogicValue.X then
          (setNet nets o nv, if old ≠ nv then true else progress)
        else if old = LogicValue.X then (setNet nets o nv, progress)
        else (nets, progress)) := by
      unfold updateOneOutput; rw [ho]
    rw [hred]
    by_cases hnv : nv = LogicValue.X
    · rw [if_neg (by simpa using hnv)]
      by_cases hold : old = LogicValue.X
      · rw [if_pos hold]
        by_cases hko : k = o
        · subst hko
          rw [hw] at ho
          injection ho with ho'
          exact absurd (ho'.trans hold) hwx
        · exact ⟨w, by rw [show (setNet nets o nv, progress).1 =
              setNet nets o nv from rfl, lookupNet_setNet_ne _ hko]; exact hw,
            hwx⟩
      · rw [if_neg hold]
        exact ⟨w, hw, hwx⟩
    · rw [if_pos (by simpa using hnv)]
      by_cases hko : k = o
      · subst hko
        exact ⟨nv, lookupNet_setNet_self nv hw, hnv⟩
      · exact ⟨w, by rw [show (setNet nets o nv,
            if old ≠ nv then true else progress).1 = setNet nets o nv from rfl,
            lookupNet_setNet_ne _ hko]; exact hw, hwx⟩

theorem foldUpdate_pres (l : List (String × LogicValue)) (nets : NetMap)
    (progress : Bool) (k : String) (h : nonXAt nets k) :
    nonXAt (l.foldl (fun acc p => updateOneOutput acc.1 acc.2 p.1 p.2)
      (nets, progress)).1 k := by
  induction l generalizing nets progress with
  | nil => exact h
  | cons p rest ih =>
    simp only [List.foldl_cons]
    have h1 := updateOneOutput_pres progress p.1 p.2 h
    exact ih _ _ h1

theorem updateGateOutputs_pres (outputs : List String)
    (vals : List LogicValue) (nets : NetMap) (progress : Bool) (k : String)
    (h : nonXAt nets k) :
    nonXAt (updateGateOutputs outputs vals nets progress).1 k :=
  foldUpdate_pres _ nets progress k h

theorem simGateStep_pres (g : Gate) (nets : NetMap) (progress : Bool)
    (k : String) (h : nonXAt nets k) :
    nonXAt (simGateStep g nets progress).1 k :=
  updateGateOutputs_pres _ _ nets progress k h

theorem modulePass_fold_pres (gates : List Gate) (nets : NetMap)
    (progress : Bool) (k : String) (h : nonXAt nets k) :
    nonXAt (gates.foldl (fun acc g => simGateStep g acc.1 acc.2)
      (nets, progress)).1 k := by
  induction gates generalizing nets progress with
  | nil => exact h
  | cons g rest ih =>
    simp only [List.foldl_cons]
    exact ih _ _ (simGateStep_pres g nets progress k h)

theorem levelPass_fold_pres (modules : List Module) (gd : DepthMap)
    (max_level : Nat) (nets : NetMap) (progress : Bool) (k : String)
    (h : nonXAt nets k) :
    nonXAt (modules.foldl
      (fun acc m => m.gates.foldl
        (fun a g =>
          match gd g.name with
          | some d => if d ≤ max_level then simGateStep g a.1 a.2 else a
          | none => a) acc)
      (nets, progress)).1 k := by
  induction modules generalizing nets progress with
  | nil => exact h
  | cons m rest ih =>
    simp only [List.foldl_cons]
    have inner : ∀ (gs : List Gate) (nets' : NetMap) (pr' : Bool),
        nonXAt nets' k →
        nonXAt (gs.foldl
          (fun a g =>
            match gd g.name with
            | some d => if d ≤ max_level then simGateStep g a.1 a.2 else a
            | none => a) (nets', pr')).1 k := by
      intro gs
      induction gs with
      | nil => intro nets' pr' hh; exact hh
      | cons g gs ihg =>
        intro nets' pr' hh
        simp only [List.foldl_cons]
        cases hgd : gd g.name with
        | none => exact ihg _ _ hh
        | some d =>
          by_cases hd : d ≤ max_level
          · simp only [hd, if_true]
            have := simGateStep_pres g nets' pr' k hh
            exact ihg _ _ this
          · simp only [hd, if_false]
            exact ihg _ _ hh
    have h1 := inner m.gates nets progress h
    exact ih _ _ h1

/-! ## Claim C3 -/

/-- **C3.** During every propagation sweep (both the per-module convergence of
full simulation and the staged sweep), a recomputed output net is overwritten
by the new value iff the new value is not `X` or the net's current value is
`X`; consequently a net that holds `ZERO` or `ONE` is never reset to `X` by
any later gate recomputation in that sweep. -/
theorem C3_sweep_update_monotone :
    (∀ (nets : NetMap) (progress : Bool) (k : String)
        (new_value old_value : LogicValue),
      lookupNet nets k = some old_value →
      lookupNet (updateOneOutput nets progress k new_value).1 k =
        some (if new_value ≠ LogicValue.X ∨ old_value = LogicValue.X
          then new_value else old_value)) ∧
    (∀ (gates : List Gate) (nets : NetMap) (k : String) (v : LogicValue),
      lookupNet nets k = some v → v ≠ LogicValue.X →
      ∃ w, lookupNet (modulePass gates nets).1 k = some w ∧
        w ≠ LogicValue.X) ∧
    (∀ (modules : List Module) (gd : DepthMap) (max_level : Nat)
        (nets : NetMap) (k : String) (v : LogicValue),
      lookupNet nets k = some v → v ≠ LogicValue.X →
      ∃ w, lookupNet (levelPass modules gd max_level nets).1 k = some w ∧
        w ≠ LogicValue.X) := by
  refine ⟨?_, ?_, ?_⟩
  · intro nets progress k nv old h
    have hred : updateOneOutput nets progress k nv =
        (if nv ≠ LogicValue.X then
          (setNet nets k nv, if old ≠ nv then true else progress)
        else if old = LogicValue.X then (setNet nets k nv, progress)
        else (nets, progress)) := by
      unfold updateOneOutput; rw [h]
    rw [hred]
    by_cases hnv : nv = LogicValue.X
    · rw [if_neg (by simpa using hnv)]
      by_cases hold : old = LogicValue.X
      · rw [if_pos hold, if_pos (Or.inr hold)]
        exact lookupNet_setNet_self _ h
      · rw [if_neg hold,
          if_neg (by rintro (hc | hc); exact hc hnv; exact hold hc)]
        exact h
    · rw [if_pos (by simpa using hnv), if_pos (Or.inl hnv)]
      exact lookupNet_setNet_self _ h
  · intro gates nets k v h hx
    exact modulePass_fold_pres gates nets false k ⟨v, h, hx⟩
  · intro modules gd max_level nets k v h hx
    exact levelPass_fold_pres modules gd max_level nets false k ⟨v, h, hx⟩

/-- Witness for C3 at a concrete input: a `ZERO`-valued net is not reset by
an `X` recomputation, and a one-gate module sweep keeps the net concrete. -/
theorem C3_sweep_update_monotone_witness :
    lookupNet (updateOneOutput [("k", LogicValue.ZERO)] false "k"
        LogicValue.X).1 "k" =
      some (if LogicValue.X ≠ LogicValue.X ∨ LogicValue.ZERO = LogicValue.X
        then LogicValue.X else LogicValue.ZERO) ∧
    ∃ w, lookupNet (modulePass
        [{ name := "g", gate_type := "xor", inputs := ["a"], outputs := ["k"],
           port_map := [] }]
        [("a", LogicValue.ONE), ("k", LogicValue.ZERO)]).1 "k" = some w ∧
      w ≠ LogicValue.X :=
  ⟨C3_sweep_update_monotone.1 [("k", LogicValue.ZERO)] false "k"
      LogicValue.X LogicValue.ZERO (by decide),
    C3_sweep_update_monotone.2.1 _ _ "k" LogicValue.ZERO (by decide)
      (by decide)⟩

/-! ## Claims C4 and C8 -/

theorem lookupNet_coerceX (nets : NetMap) (k : String) :
    lookupNet (coerceX nets) k =
      (lookupNet nets k).map
        (fun v => if v = LogicValue.X then LogicValue.ZERO else v) := by
  induction nets with
  | nil => rfl
  | cons p rest ih =>
    show lookupNet
        ((if p.2 = LogicValue.X then (p.1, LogicValue.ZERO) else p) ::
          coerceX rest) k =
      Option.map _ (if p.1 = k then some p.2 else lookupNet rest k)
    by_cases hv : p.2 = LogicValue.X
    · rw [if_pos hv]
      show (if p.1 = k then some LogicValue.ZERO
          else lookupNet (coerceX rest) k) = _
      by_cases hp : p.1 = k
      · rw [if_pos hp, if_pos hp, hv]
        simp
      · rw [if_neg hp, if_neg hp, ih]
    · rw [if_neg hv]
      show (if p.1 = k then some p.2 else lookupNet (coerceX rest) k) = _
      by_cases hp : p.1 = k
      · rw [if_pos hp, if_pos hp]
        simp [hv]
      · rw [if_neg hp, if_neg hp, ih]

/-- Demo module for the staged-simulation half of C4: a one-input `xor` gate
evaluates to `X`, and the staged run leaves its output `X`. -/
def staged_demo_module : Module :=
  { name := "ms", ports := [("a", "input")],
    gates := [{ name := "g", gate_type := "xor", inputs := ["a"],
                outputs := ["y"], port_map := [] }],
    nets := [] }

/-- **C4.** The value map returned by full simulation contains no `UNKNOWN`
entry — every net still `UNKNOWN` after bounded convergence is coerced to
`ZERO` as a final step — whereas staged simulation performs no end-of-run
coercion, so nets left `UNKNOWN` remain `UNKNOWN` in its returned map. -/
theorem C4_full_no_unknown_staged_keeps_unknown :
    (∀ (modules : List Module) (input_values : List (String × LogicValue))
        (k : String) (v : LogicValue),
      lookupNet (simulate modules input_values).1 k = some v →
      v ≠ LogicValue.X) ∧
    (∀ (modules : List Module) (input_values : List (String × LogicValue))
        (k : String),
      lookupNet (simulate_core modules input_values) k = some LogicValue.X →
      lookupNet (simulate modules input_values).1 k = some LogicValue.ZERO) ∧
    lookupNet (simulate_by_level [staged_demo_module]
      [("a", LogicValue.ONE)] 5).1 "y" = some LogicValue.X := by
  refine ⟨?_, ?_, by decide⟩
  · intro modules input_values k v h
    rw [show (simulate modules input_values).1 =
        coerceX (simulate_core modules input_values) from rfl,
      lookupNet_coerceX] at h
    cases hc : lookupNet (simulate_core modules input_values) k with
    | none => rw [hc] at h; cases h
    | some w =>
      rw [hc] at h
      have h' : (if w = LogicValue.X then LogicValue.ZERO else w) = v := by
        injection h
      rw [← h']
      by_cases hw : w = LogicValue.X
      · rw [if_pos hw]; decide
      · rw [if_neg hw]; exact hw
  · intro modules input_values k h
    rw [show (simulate modules input_values).1 =
        coerceX (simulate_core modules input_values) from rfl,
      lookupNet_coerceX, h]
    rfl

/-- Witness for C4 at a concrete input. -/
theorem C4_full_no_unknown_staged_keeps_unknown_witness :
    lookupNet (simulate [staged_demo_module] [("a", LogicValue.ONE)]).1 "y" =
        some LogicValue.ZERO ∧
    LogicValue.ZERO ≠ LogicValue.X :=
  ⟨C4_full_no_unknown_staged_keeps_unknown.2.1 [staged_demo_module]
      [("a", LogicValue.ONE)] "y" (by decide),
    C4_full_no_unknown_staged_keeps_unknown.1 [staged_demo_module]
      [("a", LogicValue.ONE)] "y" LogicValue.ZERO (by decide)⟩

/-- Demo module for C8: a declared net `n` feeding a `not` gate.  After a
first full simulation the final coercion mutates the stored value of `n` to
`ZERO`, so a second run no longer starts from `UNKNOWN`. -/
def fresh_demo_module : Module :=
  { name := "m8", ports := [],
    gates := [{ name := "g", gate_type := "not", inputs := ["n"],
                outputs := ["y"], port_map := [] }],
    nets := [("n", LogicValue.X)] }

/-- **C8 counterexample.** Running full simulation a second time on the same
(mutated) `Module` objects does *not* behave as if all net values start at
`UNKNOWN`: on `fresh_demo_module` the second run returns a different value
map than the fresh run, because the declared net `n` was left at `ZERO` by
the first run's coercion instead of being reset to `UNKNOWN`. -/
theorem C8_counterexample_no_reset :
    (simulate ((simulate [fresh_demo_module] []).2) []).1 ≠
      (simulate [fresh_demo_module] []).1 := by decide

/-- **C8 (amended).** Module-declared nets are *not* reset to `UNKNOWN` at
the start of a run: full simulation starts from their currently stored
values (and its final coercion mutates them in place); only implicitly
created nets start at `UNKNOWN`.  Consequently a second full simulation on
the same `Module` objects may return a different map than a fresh run. -/
theorem C8_no_reset_amended :
    lookupNet (initAllNets
        [{ fresh_demo_module with nets := [("n", LogicValue.ONE)] }]) "n" =
      some LogicValue.ONE ∧
    lookupNet (initAllNets [fresh_demo_module]) "y" = some LogicValue.X ∧
    (simulate [fresh_demo_module] []).2 =
      [{ fresh_demo_module with nets := [("n", LogicValue.ZERO)] }] ∧
    (simulate [fresh_demo_module] []).1 =
      [("n", LogicValue.ZERO), ("y", LogicValue.ZERO)] ∧
    (simulate ((simulate [fresh_demo_module] []).2) []).1 =
      [("n", LogicValue.ZERO), ("y", LogicValue.ONE)] := by decide

/-! ## Claim C10 -/

theorem updateOneOutput_fst_of_X {nets : NetMap} {o : String}
    (progress : Bool) (v : LogicValue)
    (h : lookupNet nets o = some LogicValue.X) :
    (updateOneOutput nets progress o v).1 = setNet nets o v := by
  have hred : updateOneOutput nets progress o v =
      (if v ≠ LogicValue.X then
        (setNet nets o v, if LogicValue.X ≠ v then true else progress)
      else if LogicValue.X = LogicValue.X then (setNet nets o v, progress)
      else (nets, progress)) := by
    unfold updateOneOutput; rw [h]
  rw [hred]
  by_cases hv : v = LogicValue.X
  · rw [if_neg (by simpa using hv), if_pos rfl]
  · rw [if_pos hv]

/-- **C10.** For gate-type tags `fa`, `ha`, `fs`, `hs` the gate evaluator
returns a two-element output vector whose first element is the carry/borrow
and whose second element is the sum/difference, and the propagation step
writes computed values to the gate's declared output nets strictly by
position (the i-th value to the i-th output net), regardless of the output
nets' names and independent of the gate's named-port map. -/
theorem C10_compound_vector_positional :
    (∀ (g : Gate) (nets : NetMap), g.gate_type = "fa" →
      simulate_gate g nets = simulate_full_adder (getInputValues g nets)) ∧
    (∀ (g : Gate) (nets : NetMap), g.gate_type = "ha" →
      simulate_gate g nets = simulate_half_adder (getInputValues g nets)) ∧
    (∀ (g : Gate) (nets : NetMap), g.gate_type = "fs" →
      simulate_gate g nets = simulate_full_subtractor (getInputValues g nets)) ∧
    (∀ (g : Gate) (nets : NetMap), g.gate_type = "hs" →
      simulate_gate g nets = simulate_half_subtractor (getInputValues g nets)) ∧
    (∀ l : List LogicValue,
      (simulate_full_adder l).length = 2 ∧
      (simulate_half_adder l).length = 2 ∧
      (simulate_full_subtractor l).length = 2 ∧
      (simulate_half_subtractor l).length = 2) ∧
    (∀ a b c : LogicValue,
      (simulate_full_adder [a, b, c])[0]? =
        some (spec_or [spec_and [a, b], spec_and [b, c], spec_and [a, c]]) ∧
      (simulate_full_adder [a, b, c])[1]? = some (spec_xor [a, b, c]) ∧
      (simulate_full_subtractor [a, b, c])[0]? =
        some (spec_or [spec_and [spec_not a, b], spec_and [spec_not a, c],
          spec_and [b, c]]) ∧
      (simulate_full_subtractor [a, b, c])[1]? = some (spec_xor [a, b, c])) ∧
    (∀ a b : LogicValue,
      (simulate_half_adder [a, b])[0]? = some (spec_and [a, b]) ∧
      (simulate_half_adder [a, b])[1]? = some (spec_xor [a, b]) ∧
      (simulate_half_subtractor [a, b])[0]? =
        some (spec_and [spec_not a, b]) ∧
      (simulate_half_subtractor [a, b])[1]? = some (spec_xor [a, b])) ∧
    (∀ (o1 o2 : String) (v1 v2 : LogicValue) (nets : NetMap)
        (progress : Bool),
      o1 ≠ o2 →
      lookupNet nets o1 = some LogicValue.X →
      lookupNet nets o2 = some LogicValue.X →
      lookupNet (updateGateOutputs [o1, o2] [v1, v2] nets progress).1 o1 =
          some v1 ∧
      lookupNet (updateGateOutputs [o1, o2] [v1, v2] nets progress).1 o2 =
          some v2) ∧
    (∀ (g : Gate) (pm : List (String × String)) (nets : NetMap)
        (progress : Bool),
      simGateStep { g with port_map := pm } nets progress =
        simGateStep g nets progress) := by
  refine ⟨?_, ?_, ?_, ?_, ?_, by decide, by decide, ?_, fun _ _ _ _ => rfl⟩
  · intro g nets h; simp [simulate_gate, h]
  · intro g nets h; simp [simulate_gate, h]
  · intro g nets h; simp [simulate_gate, h]
  · intro g nets h; simp [simulate_gate, h]
  · intro l
    refine ⟨?_, ?_, ?_, ?_⟩ <;>
      rcases l with _ | ⟨a, _ | ⟨b, _ | ⟨c, rest⟩⟩⟩ <;> rfl
  · intro o1 o2 v1 v2 nets progress hne h1 h2
    have hfold : updateGateOutputs [o1, o2] [v1, v2] nets progress =
        updateOneOutput (updateOneOutput nets progress o1 v1).1
          (updateOneOutput nets progress o1 v1).2 o2 v2 := rfl
    have e1 : (updateOneOutput nets progress o1 v1).1 = setNet nets o1 v1 :=
      updateOneOutput_fst_of_X _ _ h1
    have h2' : lookupNet (updateOneOutput nets progress o1 v1).1 o2 =
        some LogicValue.X := by
      rw [e1, lookupNet_setNet_ne _ (fun hh => hne hh.symm)]
      exact h2
    have e2 : (updateOneOutput (updateOneOutput nets progress o1 v1).1
        (updateOneOutput nets progress o1 v1).2 o2 v2).1 =
        setNet (updateOneOutput nets progress o1 v1).1 o2 v2 :=
      updateOneOutput_fst_of_X _ _ h2'
    rw [hfold]
    constructor
    · rw [e2, lookupNet_setNet_ne _ hne, e1]
      exact lookupNet_setNet_self _ h1
    · rw [e2]
      exact lookupNet_setNet_self _ h2'

/-- Witness for C10 at concrete inputs. -/
theorem C10_compound_vector_positional_witness :
    simulate_gate
        { name := "g", gate_type := "fa", inputs := ["a", "b", "c"],
          outputs := ["co", "s"], port_map := [] } [] =
      simulate_full_adder (getInputValues
        { name := "g", gate_type := "fa", inputs := ["a", "b", "c"],
          outputs := ["co", "s"], port_map := [] } []) ∧
    lookupNet (updateGateOutputs ["co", "s"]
        [LogicValue.ONE, LogicValue.ZERO]
        [("co", LogicValue.X), ("s", LogicValue.X)] false).1 "co" =
      some LogicValue.ONE :=
  ⟨C10_compound_vector_positional.1 _ [] rfl,
    (C10_compound_vector_positional.2.2.2.2.2.2.2.1 "co" "s" LogicValue.ONE
      LogicValue.ZERO [("co", LogicValue.X), ("s", LogicValue.X)] false
      (by decide) (by decide) (by decide)).1⟩

/-! ## Claim C7: order independence of the depth computation -/

theorem updateDepth_apply (f : DepthMap) (k : String) (d : Nat) (n : String) :
    updateDepth f k d n = if n = k then some d else f n := rfl

theorem collectDepths_mono_mem {nd nd' : DepthMap} (l : List String) :
    ∀ {vs : List Nat}, collectDepths nd l = some vs →
    (∀ n ∈ l, ∀ v, nd n = some v → nd' n = some v) →
    collectDepths nd' l = some vs := by
  induction l with
  | nil => intro vs hc _; exact hc
  | cons n rest ih =>
    intro vs hc hmem
    unfold collectDepths at hc ⊢
    cases hn : nd n with
    | none => rw [hn] at hc; cases hc
    | some v =>
      rw [hn] at hc
      cases hr : collectDepths nd rest with
      | none => rw [hr] at hc; cases hc
      | some vs' =>
        rw [hr] at hc
        rw [hmem n (List.mem_cons_self n rest) v hn,
          ih hr (fun m hm w hw => hmem m (List.mem_cons_of_mem n hm) w hw)]
        exact hc

theorem collectDepths_val_mem {nd : DepthMap} (l : List String) :
    ∀ {vs : List Nat}, collectDepths nd l = some vs →
    ∀ n ∈ l, ∀ v, nd n = some v → v ∈ vs := by
  induction l with
  | nil => intro vs _ n hn; cases hn
  | cons m rest ih =>
    intro vs hc n hn v hv
    unfold collectDepths at hc
    cases hm : nd m with
    | none => rw [hm] at hc; cases hc
    | some w =>
      rw [hm] at hc
      cases hr : collectDepths nd rest with
      | none => rw [hr] at hc; cases hc
      | some ws =>
        rw [hr] at hc
        injection hc with hc'
        subst hc'
        rcases List.mem_cons.mp hn with he | he
        · subst he
          rw [hm] at hv
          injection hv with hv'
          subst hv'
          exact List.mem_cons_self _ _
        · exact List.mem_cons_of_mem _ (ih hr n he v hv)

theorem le_foldl_max (ds : List Nat) : ∀ (d0 v : Nat), v ∈ d0 :: ds →
    v ≤ ds.foldl Nat.max d0 := by
  induction ds with
  | nil =>
    intro d0 v h
    rcases List.mem_cons.mp h with he | he
    · subst he; exact Nat.le_refl _
    · cases he
  | cons e es ih =>
    intro d0 v h
    show v ≤ es.foldl Nat.max (Nat.max d0 e)
    rcases List.mem_cons.mp h with he | he
    · subst he
      exact Nat.le_trans (Nat.le_max_left v e)
        (ih (Nat.max v e) (Nat.max v e) (List.mem_cons_self _ _))
    · rcases List.mem_cons.mp he with he2 | he2
      · subst he2
        exact Nat.le_trans (Nat.le_max_right d0 v)
          (ih (Nat.max d0 v) (Nat.max d0 v) (List.mem_cons_self _ _))
      · exact ih (Nat.max d0 e) v (List.mem_cons_of_mem _ he2)

theorem foldUpdateDepth_eq (outs : List String) (nd : DepthMap) (d : Nat)
    (n : String) :
    outs.foldl (fun f o => updateDepth f o d) nd n =
      if n ∈ outs then some d else nd n := by
  induction outs generalizing nd with
  | nil => simp
  | cons o rest ih =>
    simp only [List.foldl_cons]
    rw [ih]
    by_cases hn : n ∈ rest
    · rw [if_pos hn, if_pos (List.mem_cons_of_mem o hn)]
    · rw [if_neg hn]
      by_cases ho : n = o
      · rw [if_pos (by rw [ho]; exact List.mem_cons_self o rest),
          updateDepth_apply, if_pos ho]
      · rw [if_neg (by
          intro hc
          rcases List.mem_cons.mp hc with h1 | h1
          · exact ho h1
          · exact hn h1)]
        rw [updateDepth_apply, if_neg ho]

/-- A gate is "ready" exactly when still unassigned with every input depth
known and at least one input. -/
def depthReady (nd gd : DepthMap) (g : Gate) : Prop :=
  gd g.name = none ∧ ∃ d0 ds, collectDepths nd g.inputs = some (d0 :: ds)

theorem depthStep_skip {nd gd : DepthMap} {p : Bool} {g : Gate}
    (h : ¬ depthReady nd gd g) : depthStep (nd, gd, p) g = (nd, gd, p) := by
  simp only [depthStep]
  cases hg : gd g.name with
  | some d => rfl
  | none =>
    simp only [Option.isSome_none, Bool.false_eq_true, if_false]
    cases hc : collectDepths nd g.inputs with
    | none => rfl
    | some vs =>
      cases vs with
      | nil => rfl
      | cons d0 ds => exact absurd ⟨hg, d0, ds, hc⟩ h

theorem depthStep_fire {nd gd : DepthMap} {p : Bool} {g : Gate} {d0 : Nat}
    {ds : List Nat} (hg : gd g.name = none)
    (hc : collectDepths nd g.inputs = some (d0 :: ds)) :
    depthStep (nd, gd, p) g =
      (g.outputs.foldl (fun f o => updateDepth f o (ds.foldl Nat.max d0 + 1))
        nd,
       updateDepth gd g.name (ds.foldl Nat.max d0 + 1), true) := by
  simp only [depthStep, hg, hc, Option.isSome_none, Bool.false_eq_true,
    if_false]

theorem depthStep_progress (nd gd : DepthMap) (g : Gate) :
    (depthStep (nd, gd, true) g).2.2 = true := by
  by_cases hr : depthReady nd gd g
  · obtain ⟨hg, d0, ds, hc⟩ := hr
    rw [depthStep_fire hg hc]
  · rw [depthStep_skip hr]

theorem foldDepthStep_progress (order : List Gate) :
    ∀ (st : DepthMap × DepthMap × Bool), st.2.2 = true →
    (order.foldl depthStep st).2.2 = true := by
  induction order with
  | nil => intro st h; exact h
  | cons g rest ih =>
    intro st h
    obtain ⟨nd, gd, p⟩ := st
    have hp : p = true := h
    subst hp
    simp only [List.foldl_cons]
    exact ih _ (depthStep_progress nd gd g)

theorem foldDepthStep_no_progress (order : List Gate) :
    ∀ (nd gd : DepthMap) (p : Bool),
    (order.foldl depthStep (nd, gd, p)).2.2 = false →
    p = false ∧ ∀ g ∈ order, ¬ depthReady nd gd g := by
  induction order with
  | nil =>
    intro nd gd p h
    exact ⟨h, fun g hg => absurd hg (List.not_mem_nil g)⟩
  | cons g rest ih =>
    intro nd gd p h
    rw [List.foldl_cons] at h
    by_cases hr : depthReady nd gd g
    · exfalso
      obtain ⟨hg, d0, ds, hc⟩ := hr
      rw [depthStep_fire hg hc] at h
      rw [foldDepthStep_progress rest _ rfl] at h
      cases h
    · rw [depthStep_skip hr] at h
      obtain ⟨hp, hrest⟩ := ih nd gd p h
      refine ⟨hp, ?_⟩
      intro g' hg'
      rcases List.mem_cons.mp hg' with he | he
      · subst he; exact hr
      · exact hrest g' he

theorem depthPass_stable (order : List Gate) (nd gd : DepthMap)
    (h : (depthPass order nd gd).2.2 = false) :
    ∀ g ∈ order, ¬ depthReady nd gd g :=
  (foldDepthStep_no_progress order nd gd false h).2

/-- Run invariant for the depth computation over a fixed gate universe `G`
and seeding `seed`: every assigned gate name belongs to `G`; every assigned
depth satisfies its defining equation w.r.t. the current net depths; every
known net depth stems from the seed or from an assigned driving gate; and an
assigned gate's outputs carry its depth. -/
structure DepthInv (G : List Gate) (seed nd gd : DepthMap) : Prop where
  names : ∀ s d, gd s = some d → ∃ g, g ∈ G ∧ g.name = s
  sound : ∀ g ∈ G, ∀ d, gd g.name = some d →
    ∃ d0 ds, collectDepths nd g.inputs = some (d0 :: ds) ∧
      d = ds.foldl Nat.max d0 + 1
  origin : ∀ n v, nd n = some v →
    seed n = some v ∨ ∃ g, g ∈ G ∧ n ∈ g.outputs ∧ gd g.name = some v
  outs : ∀ g ∈ G, ∀ d, gd g.name = some d → ∀ n ∈ g.outputs, nd n = some d

theorem depthInv_init (G : List Gate) (seed : DepthMap) :
    DepthInv G seed seed (fun _ => none) where
  names := fun _ _ h => Option.noConfusion h
  sound := fun _ _ _ h => Option.noConfusion h
  origin := fun _ _ h => Or.inl h
  outs := fun _ _ _ h => Option.noConfusion h

theorem depthStep_inv {G : List Gate} {seed : DepthMap}
    (hnodup : (G.map Gate.name).Nodup)
    (hdriver : ∀ g1 ∈ G, ∀ g2 ∈ G, ∀ n, n ∈ g1.outputs → n ∈ g2.outputs →
      g1 = g2)
    (hport : ∀ g ∈ G, ∀ n ∈ g.outputs, seed n = none)
    {nd gd : DepthMap} {p : Bool} {g : Gate} (hgG : g ∈ G)
    (inv : DepthInv G seed nd gd) :
    DepthInv G seed (depthStep (nd, gd, p) g).1 (depthStep (nd, gd, p) g).2.1 ∧
    (∀ n v, nd n = some v → (depthStep (nd, gd, p) g).1 n = some v) ∧
    (∀ s d, gd s = some d → (depthStep (nd, gd, p) g).2.1 s = some d) := by
  by_cases hr : depthReady nd gd g
  · obtain ⟨hgnone, d0, ds, hc⟩ := hr
    have hout_none : ∀ n ∈ g.outputs, nd n = none := by
      intro n hn
      cases hv : nd n with
      | none => rfl
      | some v =>
        exfalso
        rcases inv.origin n v hv with hs | ⟨g', hg', hno, hgd'⟩
        · rw [hport g hgG n hn] at hs; cases hs
        · have hgg : g' = g := hdriver g' hg' g hgG n hno hn
          rw [hgg, hgnone] at hgd'; cases hgd'
    have hndmono : ∀ n v, nd n = some v →
        (g.outputs.foldl
          (fun f o => updateDepth f o (ds.foldl Nat.max d0 + 1)) nd) n =
          some v := by
      intro n v hv
      rw [foldUpdateDepth_eq]
      by_cases hn : n ∈ g.outputs
      · rw [hout_none n hn] at hv; cases hv
      · rw [if_neg hn]; exact hv
    have hgdmono : ∀ s d, gd s = some d →
        updateDepth gd g.name (ds.foldl Nat.max d0 + 1) s = some d := by
      intro s d hv
      rw [updateDepth_apply]
      by_cases hs : s = g.name
      · rw [hs, hgnone] at hv; cases hv
      · rw [if_neg hs]; exact hv
    have hinv : DepthInv G seed
        (g.outputs.foldl
          (fun f o => updateDepth f o (ds.foldl Nat.max d0 + 1)) nd)
        (updateDepth gd g.name (ds.foldl Nat.max d0 + 1)) := by
      refine ⟨?_, ?_, ?_, ?_⟩
      · intro s d hsd
        rw [updateDepth_apply] at hsd
        by_cases hs : s = g.name
        · exact ⟨g, hgG, hs.symm⟩
        · rw [if_neg hs] at hsd
          exact inv.names s d hsd
      · intro g' hg' d hgd'
        by_cases hs : g'.name = g.name
        · have hgg : g' = g := List.inj_on_of_nodup_map hnodup hg' hgG hs
          rw [hs, updateDepth_apply, if_pos rfl] at hgd'
          injection hgd' with hd
          subst hd
          rw [hgg]
          exact ⟨d0, ds, collectDepths_mono_mem g.inputs hc
            (fun n _ v hv => hndmono n v hv), rfl⟩
        · rw [updateDepth_apply, if_neg hs] at hgd'
          obtain ⟨e0, es, hce, hde⟩ := inv.sound g' hg' d hgd'
          exact ⟨e0, es, collectDepths_mono_mem g'.inputs hce
            (fun n _ v hv => hndmono n v hv), hde⟩
      · intro n v hv
        rw [foldUpdateDepth_eq] at hv
        by_cases hn : n ∈ g.outputs
        · rw [if_pos hn] at hv
          injection hv with hv'
          subst hv'
          exact Or.inr ⟨g, hgG, hn, by rw [updateDepth_apply, if_pos rfl]⟩
        · rw [if_neg hn] at hv
          rcases inv.origin n v hv with hs | ⟨g', hg', hno, hgd'⟩
          · exact Or.inl hs
          · exact Or.inr ⟨g', hg', hno, hgdmono _ _ hgd'⟩
      · intro g' hg' d hgd' n hn
        by_cases hs : g'.name = g.name
        · have hgg : g' = g := List.inj_on_of_nodup_map hnodup hg' hgG hs
          rw [hs, updateDepth_apply, if_pos rfl] at hgd'
          injection hgd' with hd
          subst hd
          rw [foldUpdateDepth_eq, if_pos (by rw [← hgg]; exact hn)]
        · rw [updateDepth_apply, if_neg hs] at hgd'
          exact hndmono n d (inv.outs g' hg' d hgd' n hn)
    rw [depthStep_fire hgnone hc]
    exact ⟨hinv, hndmono, hgdmono⟩
  · rw [depthStep_skip hr]
    exact ⟨inv, fun _ _ hv => hv, fun _ _ hv => hv⟩

theorem foldDepthStep_inv {G : List Gate} {seed : DepthMap}
    (hnodup : (G.map Gate.name).Nodup)
    (hdriver : ∀ g1 ∈ G, ∀ g2 ∈ G, ∀ n, n ∈ g1.outputs → n ∈ g2.outputs →
      g1 = g2)
    (hport : ∀ g ∈ G, ∀ n ∈ g.outputs, seed n = none) :
    ∀ (order : List Gate), (∀ g ∈ order, g ∈ G) →
    ∀ (st : DepthMap × DepthMap × Bool), DepthInv G seed st.1 st.2.1 →
      DepthInv G seed (order.foldl depthStep st).1
        (order.foldl depthStep st).2.1 ∧
      (∀ n v, st.1 n = some v → (order.foldl depthStep st).1 n = some v) ∧
      (∀ s d, st.2.1 s = some d →
        (order.foldl depthStep st).2.1 s = some d) := by
  intro order
  induction order with
  | nil => intro _ st inv; exact ⟨inv, fun _ _ h => h, fun _ _ h => h⟩
  | cons g rest ih =>
    intro horder st inv
    obtain ⟨nd, gd, p⟩ := st
    simp only [List.foldl_cons]
    obtain ⟨inv1, ndm, gdm⟩ :=
      depthStep_inv hnodup hdriver hport
        (horder g (List.mem_cons_self g rest)) inv (p := p)
    obtain ⟨inv2, ndm2, gdm2⟩ :=
      ih (fun g' hg' => horder g' (List.mem_cons_of_mem g hg'))
        (depthStep (nd, gd, p) g) inv1
    exact ⟨inv2, fun n v hv => ndm2 n v (ndm n v hv),
      fun s d hv => gdm2 s d (gdm s d hv)⟩

theorem depthsIter_inv {G : List Gate} {seed : DepthMap}
    (hnodup : (G.map Gate.name).Nodup)
    (hdriver : ∀ g1 ∈ G, ∀ g2 ∈ G, ∀ n, n ∈ g1.outputs → n ∈ g2.outputs →
      g1 = g2)
    (hport : ∀ g ∈ G, ∀ n ∈ g.outputs, seed n = none)
    (order : List Gate) (horder : ∀ g ∈ order, g ∈ G) :
    ∀ (fuel : Nat) (nd gd : DepthMap), DepthInv G seed nd gd →
      DepthInv G seed (depthsIter fuel order (nd, gd)).1
        (depthsIter fuel order (nd, gd)).2 ∧
      (∀ n v, nd n = some v → (depthsIter fuel order (nd, gd)).1 n = some v) := by
  intro fuel
  induction fuel with
  | zero => intro nd gd inv; exact ⟨inv, fun _ _ h => h⟩
  | succ fuel ih =>
    intro nd gd inv
    obtain ⟨invp, ndmp, gdmp⟩ :=
      foldDepthStep_inv hnodup hdriver hport order horder (nd, gd, false) inv
    have hunf : depthsIter (fuel + 1) order (nd, gd) =
        (if (depthPass order nd gd).2.2 then
          depthsIter fuel order
            ((depthPass order nd gd).1, (depthPass order nd gd).2.1)
        else ((depthPass order nd gd).1, (depthPass order nd gd).2.1)) := rfl
    by_cases hpr : (depthPass order nd gd).2.2 = true
    · rw [hunf, if_pos hpr]
      obtain ⟨inv2, ndm2⟩ := ih _ _ invp
      exact ⟨inv2, fun n v hv => ndm2 n v (ndmp n v hv)⟩
    · rw [hunf, if_neg hpr]
      exact ⟨invp, ndmp⟩

theorem depth_gd_incl (G : List Gate) (seed nd1 gd1 nd2 gd2 : DepthMap)
    (inv1 : DepthInv G seed nd1 gd1) (inv2 : DepthInv G seed nd2 gd2)
    (hseed2 : ∀ n v, seed n = some v → nd2 n = some v)
    (hstable2 : ∀ g ∈ G, ¬ depthReady nd2 gd2 g) :
    ∀ (d : Nat) (g : Gate), g ∈ G → gd1 g.name = some d →
      gd2 g.name = some d := by
  intro d
  induction d using Nat.strong_induction_on with
  | _ d IH =>
    intro g hgG hgd1
    obtain ⟨d0, ds, hc1, hdval⟩ := inv1.sound g hgG d hgd1
    have hc2 : collectDepths nd2 g.inputs = some (d0 :: ds) := by
      refine collectDepths_mono_mem g.inputs hc1 ?_
      intro n hn v hv
      rcases inv1.origin n v hv with hs | ⟨g', hg'G, hno, hgd'⟩
      · exact hseed2 n v hs
      · have hvmem : v ∈ d0 :: ds := collectDepths_val_mem g.inputs hc1 n hn v hv
        have hvle := le_foldl_max ds d0 v hvmem
        have hvlt : v < d := by omega
        have hg2 : gd2 g'.name = some v := IH v hvlt g' hg'G hgd'
        exact inv2.outs g' hg'G v hg2 n hno
    cases hgd2 : gd2 g.name with
    | none => exact absurd ⟨hgd2, d0, ds, hc2⟩ (hstable2 g hgG)
    | some e =>
      obtain ⟨e0, es, hc2', heval⟩ := inv2.sound g hgG e hgd2
      rw [hc2] at hc2'
      injection hc2' with hlist
      injection hlist with h1 h2
      subst h1
      subst h2
      rw [heval, hdval]

/-- **C7 (amended).** Provided every gate name is unique, every net is the
output of at most one gate, and no gate drives a primary-input-seeded net,
any two gate scan orders that both run to the stable point produce the same
final gate-depth assignment, where primary-input nets seed depth 0 and a
gate is assigned `1 + max(input depths)` exactly when all of its input nets
have known depths. -/
theorem C7_depth_order_independence_amended
    (modules : List Module) (order1 order2 : List Gate)
    (hperm : order1.Perm order2)
    (hnames : (order1.map Gate.name).Nodup)
    (hdriver : ∀ g1 ∈ order1, ∀ g2 ∈ order1, ∀ n, n ∈ g1.outputs →
      n ∈ g2.outputs → g1 = g2)
    (hport : ∀ g ∈ order1, ∀ n ∈ g.outputs, seedNetDepths modules n = none)
    (hstable1 : (depthPass order1 (runDepths modules order1).1
      (runDepths modules order1).2).2.2 = false)
    (hstable2 : (depthPass order2 (runDepths modules order2).1
      (runDepths modules order2).2).2.2 = false) :
    ∀ s, (runDepths modules order1).2 s = (runDepths modules order2).2 s := by
  have h1 := depthsIter_inv (G := order1)
    hnames hdriver hport order1 (fun _ hg => hg) 100
    (seedNetDepths modules) (fun _ => none)
    (depthInv_init order1 (seedNetDepths modules))
  have h2 := depthsIter_inv (G := order1)
    hnames hdriver hport order2 (fun g hg => hperm.mem_iff.mpr hg) 100
    (seedNetDepths modules) (fun _ => none)
    (depthInv_init order1 (seedNetDepths modules))
  have inv1 : DepthInv order1 (seedNetDepths modules)
      (runDepths modules order1).1 (runDepths modules order1).2 := h1.1
  have inv2 : DepthInv order1 (seedNetDepths modules)
      (runDepths modules order2).1 (runDepths modules order2).2 := h2.1
  have seedsub1 : ∀ n v, seedNetDepths modules n = some v →
      (runDepths modules order1).1 n = some v := h1.2
  have seedsub2 : ∀ n v, seedNetDepths modules n = some v →
      (runDepths modules order2).1 n = some v := h2.2
  have st1 : ∀ g ∈ order1,
      ¬ depthReady (runDepths modules order1).1 (runDepths modules order1).2
        g :=
    fun g hg => depthPass_stable order1 _ _ hstable1 g hg
  have st2 : ∀ g ∈ order1,
      ¬ depthReady (runDepths modules order2).1 (runDepths modules order2).2
        g :=
    fun g hg => depthPass_stable order2 _ _ hstable2 g (hperm.mem_iff.mp hg)
  have incl12 := depth_gd_incl order1 (seedNetDepths modules) _ _ _ _
    inv1 inv2 seedsub2 st2
  have incl21 := depth_gd_incl order1 (seedNetDepths modules) _ _ _ _
    inv2 inv1 seedsub1 st1
  intro s
  cases hg1 : (runDepths modules order1).2 s with
  | some d =>
    obtain ⟨g, hgG, hname⟩ := inv1.names s d hg1
    subst hname
    rw [incl12 d g hgG hg1]
  | none =>
    cases hg2 : (runDepths modules order2).2 s with
    | none => rfl
    | some e =>
      obtain ⟨g, hgG, hname⟩ := inv2.names s e hg2
      subst hname
      have hcontra := incl21 e g hgG hg2
      rw [hg1] at hcontra
      cases hcontra

/-- C7 counterexample circuit: net `n` is driven by two gates of different
depths (`G1` directly from the input, `G2` through `G4`), so the depth that
the consumer `G3` observes for `n` depends on the scan order. -/
def c7_G1 : Gate :=
  { name := "G1", gate_type := "and", inputs := ["a"], outputs := ["n"],
    port_map := [] }

def c7_G2 : Gate :=
  { name := "G2", gate_type := "and", inputs := ["m"], outputs := ["n"],
    port_map := [] }

def c7_G3 : Gate :=
  { name := "G3", gate_type := "and", inputs := ["n"], outputs := ["y"],
    port_map := [] }

def c7_G4 : Gate :=
  { name := "G4", gate_type := "and", inputs := ["a"], outputs := ["m"],
    port_map := [] }

def c7_module : Module :=
  { name := "m7", ports := [("a", "input")],
    gates := [c7_G1, c7_G3, c7_G2, c7_G4], nets := [] }

def c7_order1 : List Gate := [c7_G1, c7_G3, c7_G2, c7_G4]

def c7_order2 : List Gate := [c7_G4, c7_G2, c7_G3, c7_G1]

/-- **C7 counterexample.** Two scan orders that are permutations of each
other and both run to the stable point can yield *different* final gate-depth
assignments: on `c7_module` (where net `n` has two driving gates) gate `G3`
gets depth 2 under one order and depth 3 under the other. -/
theorem C7_counterexample_order_dependent :
    c7_order1.Perm c7_order2 ∧
    (depthPass c7_order1 (runDepths [c7_module] c7_order1).1
      (runDepths [c7_module] c7_order1).2).2.2 = false ∧
    (depthPass c7_order2 (runDepths [c7_module] c7_order2).1
      (runDepths [c7_module] c7_order2).2).2.2 = false ∧
    (runDepths [c7_module] c7_order1).2 "G3" = some 2 ∧
    (runDepths [c7_module] c7_order2).2 "G3" = some 3 := by
  refine ⟨by decide, by decide, by decide, by decide, by decide⟩

/-- Single-driver chain for the C7 witness. -/
def c7_Gx : Gate :=
  { name := "Gx", gate_type := "and", inputs := ["a"], outputs := ["w"],
    port_map := [] }

def c7_Gy : Gate :=
  { name := "Gy", gate_type := "and", inputs := ["w"], outputs := ["y"],
    port_map := [] }

def c7_chain_module : Module :=
  { name := "mc", ports := [("a", "input")], gates := [c7_Gx, c7_Gy],
    nets := [] }

/-- Witness for the amended C7 at a concrete input. -/
theorem C7_depth_order_independence_amended_witness :
    (runDepths [c7_chain_module] [c7_Gx, c7_Gy]).2 "Gy" =
      (runDepths [c7_chain_module] [c7_Gy, c7_Gx]).2 "Gy" :=
  C7_depth_order_independence_amended [c7_chain_module] [c7_Gx, c7_Gy]
    [c7_Gy, c7_Gx] (by decide) (by decide) (by decide) (by decide)
    (by decide) (by decide) "Gy"

/-! ## Claim C6: the hierarchical input-vector loader
(`VerilogVisualizer._load_input_values_from_file_hierarchical`) -/

/-- Python `str.isdigit` on the decimal index strings the loader sees. -/
def isDigits (s : String) : Bool :=
  !s.data.isEmpty && s.data.all Char.isDigit

/-- `int(s)` for a digit string. -/
def toNatDigits (s : String) : Nat :=
  s.data.foldl (fun a c => a * 10 + (c.toNat - 48)) 0

/-- The sort key `int(x) if x.isdigit() else 999`. -/
def idxKey (x : String) : Nat := if isDigits x then toNatDigits x else 999

/-- The written index `int(idx_str) if idx_str.isdigit() else 0`. -/
def idxVal (x : String) : Nat := if isDigits x then toNatDigits x else 0

/-- Stable insertion for an ascending sort by a `Nat` key (Python `sorted`
with `key=`). -/
def insertByKey (key : String → Nat) (x : String) :
    List String → List String
  | [] => [x]
  | y :: ys =>
    if key y ≤ key x then y :: insertByKey key x ys else x :: y :: ys

def sortByKey (key : String → Nat) (l : List String) : List String :=
  l.foldl (fun acc x => insertByKey key x acc) []

/-- Stable insertion for a descending sort (`sorted(..., reverse=True)`). -/
def insertByKeyDesc (key : String → Nat) (x : String) :
    List String → List String
  | [] => [x]
  | y :: ys =>
    if key x ≤ key y then y :: insertByKeyDesc key x ys else x :: y :: ys

def sortByKeyDesc (key : String → Nat) (l : List String) : List String :=
  l.foldl (fun acc x => insertByKeyDesc key x acc) []

/-- Python string comparison: lexicographic by code point. -/
def charListLe : List Char → List Char → Bool
  | [], _ => true
  | _ :: _, [] => false
  | c :: cs, d :: ds =>
    if c.val < d.val then true
    else if d.val < c.val then false
    else charListLe cs ds

def pyStrLe (a b : String) : Bool := charListLe a.data b.data

def insertStr (x : String) : List String → List String
  | [] => [x]
  | y :: ys => if pyStrLe y x then y :: insertStr x ys else x :: y :: ys

/-- Python `sorted` on a list of strings (stable, ascending). -/
def pySortStr (l : List String) : List String :=
  l.foldl (fun acc x => insertStr x acc) []

/-- Python `str.strip` whitespace class. -/
def pyIsSpace (c : Char) : Bool :=
  c == ' ' || c == '\t' || c == '\n' || c == '\r' || c == '\x0b' || c == '\x0c'

/-- `content.strip()`. -/
def pyStrip (l : List Char) : List Char :=
  ((l.dropWhile pyIsSpace).reverse.dropWhile pyIsSpace).reverse

/-- `content.strip()` followed by
`content.replace(' ', '').replace('\n', '').replace('\r', '')`. -/
def stripClean (l : List Char) : List Char :=
  (pyStrip l).filter (fun c => !(c == ' ' || c == '\n' || c == '\r'))

/-- Interpretation of one vector character. -/
def bitToLV (c : Char) : Option LogicValue :=
  if c = '0' then some LogicValue.ZERO
  else if c = '1' then some LogicValue.ONE
  else none

/-- The value a valid vector character denotes. -/
def charLV (c : Char) : LogicValue :=
  if c = '1' then LogicValue.ONE else LogicValue.ZERO

/-- The f-string key `f"{base_name}[{idx}]"`. -/
def arrayKeyName (base : String) (idx : Nat) : String :=
  base ++ "[" ++ toString idx ++ "]"

/-- `array_ports[base_name]` (missing keys read as `[]`; the caller only
iterates over present keys). -/
def lookupIndices (array_ports : List (String × List String))
    (base : String) : List String :=
  (((array_ports.find? (fun p => p.1 == base)).map (fun p => p.2)).getD [])

/-- The `for idx_str in indices_desc` loop of the loader: consume one bit per
index, most-significant first, erroring on exhaustion or an invalid bit. -/
def consumeIndices (content : List Char) (base : String) :
    List String → Nat → List (String × LogicValue) →
    Option (List (String × LogicValue) × Nat)
  | [], pos, acc => some (acc, pos)
  | idx_str :: rest, pos, acc =>
    match content[pos]? with
    | none => none
    | some bit =>
      match bitToLV bit with
      | none => none
      | some v =>
        consumeIndices content base rest (pos + 1)
          (dictSet acc (arrayKeyName base (idxVal idx_str)) v)

/-- The `for input_name in sorted(single_bit_inputs)` loop. -/
def consumeSingles (content : List Char) :
    List String → Nat → List (String × LogicValue) →
    Option (List (String × LogicValue) × Nat)
  | [], pos, acc => some (acc, pos)
  | name :: rest, pos, acc =>
    match content[pos]? with
    | none => none
    | some bit =>
      match bitToLV bit with
      | none => none
      | some v => consumeSingles content rest (pos + 1) (dictSet acc name v)

/-- The `for base_name in sorted(array_ports.keys())` loop: each base's
indices are sorted ascending by numeric key and then descending
(`reverse=True`) before consumption. -/
def consumeArrays (content : List Char)
    (array_ports : List (String × List String)) :
    List String → Nat → List (String × LogicValue) →
    Option (List (String × LogicValue) × Nat)
  | [], pos, acc => some (acc, pos)
  | base :: rest, pos, acc =>
    let indices := sortByKey idxKey (lookupIndices array_ports base)
    let indices_desc := sortByKeyDesc idxKey indices
    match consumeIndices content base indices_desc pos acc with
    | none => none
    | some (acc', pos') => consumeArrays content array_ports rest pos' acc'

/-- `VerilogVisualizer._load_input_values_from_file_hierarchical`, given the
file's contents: strip whitespace, validate the total length, consume array
ports in sorted base-name order (MSB-first within each array), then scalar
inputs in sorted order. -/
def load_input_values_hierarchical (raw : List Char)
    (array_ports : List (String × List String))
    (single_bit_inputs : List String) (total_bits_needed : Nat) :
    Option (List (String × LogicValue)) :=
  let content := stripClean raw
  if content.length ≠ total_bits_needed then none
  else
    match consumeArrays content array_ports
        (pySortStr (array_ports.map (fun p => p.1))) 0 [] with
    | none => none
    | some (acc, pos) =>
      match consumeSingles content (pySortStr single_bit_inputs) pos acc with
      | none => none
      | some (acc', _) => some acc'

/-- The key list produced for one array base: its indices doubly sorted
(ascending then descending, as the source does) and rendered. -/
def baseKeyNames (array_ports : List (String × List String))
    (base : String) : List String :=
  (sortByKeyDesc idxKey (sortByKey idxKey (lookupIndices array_ports base))).map
    (fun i => arrayKeyName base (idxVal i))

def arrayKeysOf (array_ports : List (String × List String)) :
    List String → List String
  | [] => []
  | b :: rest => baseKeyNames array_ports b ++ arrayKeysOf array_ports rest

/-- Specification-side bit-assignment order (spec §6): for each array-typed
primary input in ascending alphabetical order of base name, bits are
consumed most-significant index first; then each scalar primary input in
ascending alphabetical order consumes one bit. -/
def specBitOrder (array_ports : List (String × List String))
    (single_bit_inputs : List String) : List String :=
  arrayKeysOf array_ports (pySortStr (array_ports.map (fun p => p.1))) ++
    pySortStr single_bit_inputs

theorem bitToLV_valid {c : Char} (h : c = '0' ∨ c = '1') :
    bitToLV c = some (charLV c) := by
  rcases h with h | h <;> subst h <;> rfl

theorem dropWhile_eq_self_of {p : Char → Bool} {l : List Char}
    (h : ∀ c ∈ l, ¬ (p c = true)) : l.dropWhile p = l := by
  cases l with
  | nil => rfl
  | cons c rest =>
    rw [List.dropWhile_cons, if_neg (h c (List.mem_cons_self c rest))]

theorem stripClean_valid {l : List Char} (h : ∀ c ∈ l, c = '0' ∨ c = '1') :
    stripClean l = l := by
  have hns : ∀ c ∈ l, ¬ (pyIsSpace c = true) := by
    intro c hc
    rcases h c hc with h1 | h1 <;> subst h1 <;> decide
  have hrev : ∀ c ∈ l.reverse, ¬ (pyIsSpace c = true) :=
    fun c hc => hns c (List.mem_reverse.mp hc)
  unfold stripClean pyStrip
  rw [dropWhile_eq_self_of hns, dropWhile_eq_self_of hrev,
    List.reverse_reverse]
  apply List.filter_eq_self.mpr
  intro c hc
  rcases h c hc with h1 | h1 <;> subst h1 <;> decide

theorem consumeIndices_spec (content : List Char)
    (hvalid : ∀ c ∈ content, c = '0' ∨ c = '1') (base : String) :
    ∀ (idxs : List String) (pos : Nat) (acc : List (String × LogicValue)),
      pos + idxs.length ≤ content.length →
      consumeIndices content base idxs pos acc =
        some ((((idxs.map (fun i => arrayKeyName base (idxVal i))).zip
          (((content.drop pos).take idxs.length).map charLV)).foldl
          (fun a p => dictSet a p.1 p.2) acc), pos + idxs.length) := by
  intro idxs
  induction idxs with
  | nil =>
    intro pos acc _
    simp [consumeIndices]
  | cons i rest ih =>
    intro pos acc hbound
    have hlt : pos < content.length := by
      simp only [List.length_cons] at hbound
      omega
    have hget : content[pos]? = some content[pos] :=
      List.getElem?_eq_getElem hlt
    have hbv : bitToLV content[pos] = some (charLV content[pos]) :=
      bitToLV_valid (hvalid _ (List.getElem_mem hlt))
    have hdrop : content.drop pos = content[pos] :: content.drop (pos + 1) :=
      List.drop_eq_getElem_cons hlt
    have hred : consumeIndices content base (i :: rest) pos acc =
        consumeIndices content base rest (pos + 1)
          (dictSet acc (arrayKeyName base (idxVal i))
            (charLV content[pos])) := by
      simp only [consumeIndices, hget, hbv]
    rw [hred, ih (pos + 1) _
      (by simp only [List.length_cons] at hbound; omega), hdrop]
    simp only [List.length_cons, List.take_succ_cons, List.map_cons,
      List.zip_cons_cons, List.foldl_cons]
    have harith : pos + 1 + rest.length = pos + (rest.length + 1) := by omega
    rw [harith]

theorem consumeSingles_spec (content : List Char)
    (hvalid : ∀ c ∈ content, c = '0' ∨ c = '1') :
    ∀ (names : List String) (pos : Nat) (acc : List (String × LogicValue)),
      pos + names.length ≤ content.length →
      consumeSingles content names pos acc =
        some (((names.zip
          (((content.drop pos).take names.length).map charLV)).foldl
          (fun a p => dictSet a p.1 p.2) acc), pos + names.length) := by
  intro names
  induction names with
  | nil =>
    intro pos acc _
    simp [consumeSingles]
  | cons i rest ih =>
    intro pos acc hbound
    have hlt : pos < content.length := by
      simp only [List.length_cons] at hbound
      omega
    have hget : content[pos]? = some content[pos] :=
      List.getElem?_eq_getElem hlt
    have hbv : bitToLV content[pos] = some (charLV content[pos]) :=
      bitToLV_valid (hvalid _ (List.getElem_mem hlt))
    have hdrop : content.drop pos = content[pos] :: content.drop (pos + 1) :=
      List.drop_eq_getElem_cons hlt
    have hred : consumeSingles content (i :: rest) pos acc =
        consumeSingles content rest (pos + 1)
          (dictSet acc i (charLV content[pos])) := by
      simp only [consumeSingles, hget, hbv]
    rw [hred, ih (pos + 1) _
      (by simp only [List.length_cons] at hbound; omega), hdrop]
    simp only [List.length_cons, List.take_succ_cons, List.map_cons,
      List.zip_cons_cons, List.foldl_cons]
    have harith : pos + 1 + rest.length = pos + (rest.length + 1) := by omega
    rw [harith]

theorem consumeArrays_spec (content : List Char)
    (hvalid : ∀ c ∈ content, c = '0' ∨ c = '1')
    (array_ports : List (String × List String)) :
    ∀ (bases : List String) (pos : Nat) (acc : List (String × LogicValue)),
      pos + (arrayKeysOf array_ports bases).length ≤ content.length →
      consumeArrays content array_ports bases pos acc =
        some ((((arrayKeysOf array_ports bases).zip
          (((content.drop pos).take
            (arrayKeysOf array_ports bases).length).map charLV)).foldl
          (fun a p => dictSet a p.1 p.2) acc),
          pos + (arrayKeysOf array_ports bases).length) := by
  intro bases
  induction bases with
  | nil =>
    intro pos acc _
    simp [consumeArrays, arrayKeysOf]
  | cons b rest ih =>
    intro pos acc hbound
    have hsplit : arrayKeysOf array_ports (b :: rest) =
        baseKeyNames array_ports b ++ arrayKeysOf array_ports rest := rfl
    rw [hsplit] at hbound ⊢
    unfold baseKeyNames at hbound ⊢
    rw [List.length_append, List.length_map] at hbound ⊢
    have hb1 : pos + (sortByKeyDesc idxKey
        (sortByKey idxKey (lookupIndices array_ports b))).length ≤
        content.length := by omega
    have hA := consumeIndices_spec content hvalid b
      (sortByKeyDesc idxKey (sortByKey idxKey (lookupIndices array_ports b)))
      pos acc hb1
    have hred : consumeArrays content array_ports (b :: rest) pos acc =
        consumeArrays content array_ports rest
          (pos + (sortByKeyDesc idxKey
            (sortByKey idxKey (lookupIndices array_ports b))).length)
          ((((sortByKeyDesc idxKey (sortByKey idxKey
              (lookupIndices array_ports b))).map
              (fun i => arrayKeyName b (idxVal i))).zip
            (((content.drop pos).take (sortByKeyDesc idxKey (sortByKey idxKey
              (lookupIndices array_ports b))).length).map charLV)).foldl
            (fun a p => dictSet a p.1 p.2) acc) := by
      simp only [consumeArrays, hA]
    rw [hred, ih _ _ (by omega)]
    have hlen1 : ((sortByKeyDesc idxKey (sortByKey idxKey
        (lookupIndices array_ports b))).map
        (fun i => arrayKeyName b (idxVal i))).length =
        (((content.drop pos).take (sortByKeyDesc idxKey (sortByKey idxKey
          (lookupIndices array_ports b))).length).map charLV).length := by
      rw [List.length_map, List.length_map, List.length_take,
        List.length_drop]
      omega
    have hdd : (content.drop pos).drop (sortByKeyDesc idxKey (sortByKey idxKey
        (lookupIndices array_ports b))).length =
        content.drop (pos + (sortByKeyDesc idxKey (sortByKey idxKey
          (lookupIndices array_ports b))).length) := by
      rw [List.drop_drop]
    rw [List.take_add, List.map_append, List.zip_append hlen1,
      List.foldl_append, hdd]
    have harith : pos + (sortByKeyDesc idxKey (sortByKey idxKey
        (lookupIndices array_ports b))).length +
        (arrayKeysOf array_ports rest).length =
        pos + ((sortByKeyDesc idxKey (sortByKey idxKey
          (lookupIndices array_ports b))).length +
          (arrayKeysOf array_ports rest).length) := by omega
    rw [harith]

/-- **C6.** For every set of primary inputs and every input-vector string of
exactly the required length consisting of `0`/`1` characters, the loader
assigns bits in the spec §6 order: for each array-typed primary input in
ascending alphabetical order of base name, bits are consumed
most-significant index first down to the least-significant index, then each
scalar primary input in ascending alphabetical order consumes one bit. -/
theorem C6_loader_bit_order (raw : List Char)
    (array_ports : List (String × List String)) (singles : List String)
    (total : Nat) (hvalid : ∀ c ∈ raw, c = '0' ∨ c = '1')
    (hlen : raw.length = total)
    (htotal : total = (specBitOrder array_ports singles).length) :
    load_input_values_hierarchical raw array_ports singles total =
      some (((specBitOrder array_ports singles).zip (raw.map charLV)).foldl
        (fun a p => dictSet a p.1 p.2) []) := by
  have hstrip : stripClean raw = raw := stripClean_valid hvalid
  unfold specBitOrder at htotal
  rw [List.length_append] at htotal
  have hA := consumeArrays_spec raw hvalid array_ports
    (pySortStr (array_ports.map (fun p => p.1))) 0 [] (by omega)
  have hB := consumeSingles_spec raw hvalid (pySortStr singles)
    (0 + (arrayKeysOf array_ports
      (pySortStr (array_ports.map (fun p => p.1)))).length)
    (((arrayKeysOf array_ports
      (pySortStr (array_ports.map (fun p => p.1)))).zip
        (((raw.drop 0).take (arrayKeysOf array_ports
          (pySortStr (array_ports.map (fun p => p.1)))).length).map
          charLV)).foldl (fun a p => dictSet a p.1 p.2) [])
    (by omega)
  have hred1 : load_input_values_hierarchical raw array_ports singles total =
      some (((pySortStr singles).zip
        (((raw.drop (0 + (arrayKeysOf array_ports
          (pySortStr (array_ports.map (fun p => p.1)))).length)).take
          (pySortStr singles).length).map charLV)).foldl
        (fun a p => dictSet a p.1 p.2)
        (((arrayKeysOf array_ports
          (pySortStr (array_ports.map (fun p => p.1)))).zip
          (((raw.drop 0).take (arrayKeysOf array_ports
            (pySortStr (array_ports.map (fun p => p.1)))).length).map
            charLV)).foldl (fun a p => dictSet a p.1 p.2) [])) := by
    unfold load_input_values_hierarchical
    rw [hstrip]
    rw [if_neg (by omega)]
    simp only [hA, hB]
  rw [hred1]
  rw [List.drop_zero] at hred1 ⊢
  have hz : 0 + (arrayKeysOf array_ports
      (pySortStr (array_ports.map (fun p => p.1)))).length =
      (arrayKeysOf array_ports
        (pySortStr (array_ports.map (fun p => p.1)))).length :=
    Nat.zero_add _
  rw [hz]
  have htk : (raw.drop (arrayKeysOf array_ports
      (pySortStr (array_ports.map (fun p => p.1)))).length).take
      (pySortStr singles).length =
      raw.drop (arrayKeysOf array_ports
        (pySortStr (array_ports.map (fun p => p.1)))).length := by
    apply List.take_of_length_le
    rw [List.length_drop]
    omega
  rw [htk]
  have hlen1 : (arrayKeysOf array_ports
      (pySortStr (array_ports.map (fun p => p.1)))).length =
      ((raw.take (arrayKeysOf array_ports
        (pySortStr (array_ports.map (fun p => p.1)))).length).map
        charLV).length := by
    rw [List.length_map, List.length_take]
    omega
  have hfull : raw.map charLV =
      (raw.take (arrayKeysOf array_ports
        (pySortStr (array_ports.map (fun p => p.1)))).length).map charLV ++
      (raw.drop (arrayKeysOf array_ports
        (pySortStr (array_ports.map (fun p => p.1)))).length).map charLV := by
    rw [← List.map_append, List.take_append_drop]
  unfold specBitOrder
  rw [hfull, List.zip_append hlen1, List.foldl_append]

/-- Witness for C6 at the spec's concrete example: primary inputs `X[4:0]`
and `cin`, input string `"101101"`. -/
theorem C6_loader_bit_order_witness :
    load_input_values_hierarchical ("101101".data)
      [("X", ["0", "1", "2", "3", "4"])] ["cin"] 6 =
      some [("X[4]", LogicValue.ONE), ("X[3]", LogicValue.ZERO),
        ("X[2]", LogicValue.ONE), ("X[1]", LogicValue.ONE),
        ("X[0]", LogicValue.ZERO), ("cin", LogicValue.ONE)] := by
  have h := C6_loader_bit_order ("101101".data)
    [("X", ["0", "1", "2", "3", "4"])] ["cin"] 6
    (by decide) (by decide) (by decide)
  rw [h]
  decide

/-! ## Claims C5 and C9: the structural extractor (`VerilogParser`)

The regex-based scanners of the source are embedded as character-level
matchers over `List Char` with the same semantics: `re.findall` is a
leftmost, non-overlapping scan; `(.*?)` is the shortest capture whose
follower matches; `\w` is `[a-zA-Z0-9_]`; `\s` is Python's whitespace
class.  Bounded scans use a fuel of `length + 1`, enough for one step per
character. -/

/-- `\w`. -/
def isWordChar (c : Char) : Bool := c.isAlphanum || c == '_'

/-- Literal prefix match, returning the remainder. -/
def matchPrefix : List Char → List Char → Option (List Char)
  | [], l => some l
  | _, [] => none
  | p :: ps, c :: cs => if c = p then matchPrefix ps cs else none

/-- `cls+` (at least one), returning the maximal run and the remainder. -/
def takeWhile1 (p : Char → Bool) (l : List Char) :
    Option (List Char × List Char) :=
  match l with
  | [] => none
  | c :: _ => if p c then some (l.takeWhile p, l.dropWhile p) else none

/-- The non-greedy `(.*?)\)\s*;` tail: shortest capture followed by a close
paren, optional whitespace and a semicolon; returns capture and remainder
after the semicolon. -/
def matchCaptureParen : List Char → List Char → Option (List Char × List Char)
  | _, [] => none
  | acc, c :: rest =>
    if c = ')' then
      match rest.dropWhile pyIsSpace with
      | ';' :: r2 => some (acc.reverse, r2)
      | _ => matchCaptureParen (c :: acc) rest
    else matchCaptureParen (c :: acc) rest

/-- `\s*;` at the current position. -/
def afterSpacesSemi (l : List Char) : Option (List Char) :=
  match l.dropWhile pyIsSpace with
  | ';' :: r => some r
  | _ => none

/-- The non-greedy `(.*?)\s*;` tail. -/
def matchCaptureSemi : List Char → List Char → Option (List Char × List Char)
  | _, [] => none
  | acc, c :: rest =>
    match afterSpacesSemi (c :: rest) with
    | some r => some (acc.reverse, r)
    | none => matchCaptureSemi (c :: acc) rest

/-- One attempt of `KW\s+(NAME)\s*\((.*?)\)\s*;` at the current position,
with a parametrized name character class. -/
def tryInstAt (kw : List Char) (nameCls : Char → Bool) (l : List Char) :
    Option (String × String × List Char) :=
  match matchPrefix kw l with
  | none => none
  | some r1 =>
    match takeWhile1 pyIsSpace r1 with
    | none => none
    | some (_, r2) =>
      match takeWhile1 nameCls r2 with
      | none => none
      | some (nm, r3) =>
        match r3.dropWhile pyIsSpace with
        | '(' :: r4 =>
          match matchCaptureParen [] r4 with
          | none => none
          | some (cap, r5) => some (⟨nm⟩, ⟨cap⟩, r5)
        | _ => none

/-- `re.findall` for the instance patterns: leftmost, non-overlapping. -/
def scanInsts (kw : List Char) (nameCls : Char → Bool) :
    Nat → List Char → List (String × String)
  | 0, _ => []
  | _, [] => []
  | fuel + 1, c :: rest =>
    match tryInstAt kw nameCls (c :: rest) with
    | some (nm, cap, after) => (nm, cap) :: scanInsts kw nameCls fuel after
    | none => scanInsts kw nameCls fuel rest

def reFindAllInst (kw : String) (nameCls : Char → Bool) (s : List Char) :
    List (String × String) :=
  scanInsts kw.data nameCls (s.length + 1) s

/-- One attempt of the module-instantiation pattern
`(\w+)\s+(\w+)\s*\((.*?)\)\s*;`. -/
def tryModInstAt (l : List Char) :
    Option (String × String × String × List Char) :=
  match takeWhile1 isWordChar l with
  | none => none
  | some (ty, r1) =>
    match takeWhile1 pyIsSpace r1 with
    | none => none
    | some (_, r2) =>
      match takeWhile1 isWordChar r2 with
      | none => none
      | some (nm, r3) =>
        match r3.dropWhile pyIsSpace with
        | '(' :: r4 =>
          match matchCaptureParen [] r4 with
          | none => none
          | some (cap, r5) => some (⟨ty⟩, ⟨nm⟩, ⟨cap⟩, r5)
        | _ => none

def scanModInsts : Nat → List Char → List (String × String × String)
  | 0, _ => []
  | _, [] => []
  | fuel + 1, c :: rest =>
    match tryModInstAt (c :: rest) with
    | some (ty, nm, cap, after) => (ty, nm, cap) :: scanModInsts fuel after
    | none => scanModInsts fuel rest

/-- Shortest capture up to the first close paren (`(.*?)\)` with no
follower). -/
def splitAtFirstClose : List Char → List Char → Option (List Char)
  | _, [] => none
  | acc, c :: rest =>
    if c = ')' then some acc.reverse else splitAtFirstClose (c :: acc) rest

/-- The fixed, lower-cased conventional output-port names of
`_parse_gate_connections`. -/
def output_port_names : List String :=
  ["y", "out", "z", "q", "sum", "cout", "diff", "bout", "s", "co", "bo"]

/-- `re.match(r'\.(\w+)\s*\((.*?)\)', conn)` returning (port, stripped
net). -/
def parse_named_conn (conn : List Char) : Option (String × String) :=
  match conn with
  | '.' :: r1 =>
    match takeWhile1 isWordChar r1 with
    | none => none
    | some (port, r2) =>
      match r2.dropWhile pyIsSpace with
      | '(' :: r3 =>
        match splitAtFirstClose [] r3 with
        | none => none
        | some net => some (⟨port⟩, ⟨pyStrip net⟩)
      | _ => none
  | _ => none

/-- `dict[k] = v` for a string-valued dictionary. -/
def dictSetStr (m : List (String × String)) (k v : String) :
    List (String × String) :=
  if (m.find? (fun p => p.1 == k)).isSome then
    m.map (fun p => if p.1 == k then (p.1, v) else p)
  else m ++ [(k, v)]

/-- `VerilogParser._parse_gate_connections`: split on commas, strip; named
connections `.port(net)` are classified by the conventional output-name
set (after lower-casing) and recorded in the port map; positional
connections are all appended to the input list. -/
def parse_gate_connections (connections : List Char) :
    List String × List String × List (String × String) :=
  let conns := (connections.splitOn ',').map pyStrip
  conns.foldl (fun acc conn =>
    let (inputs, outputs, port_map) := acc
    if conn.contains '.' then
      match parse_named_conn conn with
      | some (port, net) =>
        let pm := dictSetStr port_map port net
        if (⟨port.data.map Char.toLower⟩ : String) ∈ output_port_names then
          (inputs, outputs ++ [net], pm)
        else (inputs ++ [net], outputs, pm)
      | none => (inputs, outputs, port_map)
    else (inputs ++ [(⟨conn⟩ : String)], outputs, port_map))
    ([], [], [])

/-- The optional `(?:\[\d+\])?` index suffix of an identifier; returns the
matched characters (possibly empty) and the remainder. -/
def matchOptIndex (l : List Char) : List Char × List Char :=
  match l with
  | '[' :: r1 =>
    match takeWhile1 Char.isDigit r1 with
    | none => ([], l)
    | some (ds, r2) =>
      match r2 with
      | ']' :: r3 => ('[' :: (ds ++ [']']), r3)
      | _ => ([], l)
  | _ => ([], l)

/-- One attempt of `assign\s+(\w+(?:\[\d+\])?)\s*=\s*(.*?)\s*;`. -/
def tryAssignAt (l : List Char) : Option (String × String × List Char) :=
  match matchPrefix "assign".data l with
  | none => none
  | some r1 =>
    match takeWhile1 pyIsSpace r1 with
    | none => none
    | some (_, r2) =>
      match takeWhile1 isWordChar r2 with
      | none => none
      | some (nm, r3) =>
        let ir := matchOptIndex r3
        match ir.2.dropWhile pyIsSpace with
        | '=' :: r5 =>
          match matchCaptureSemi [] (r5.dropWhile pyIsSpace) with
          | none => none
          | some (expr, r6) => some (⟨nm ++ ir.1⟩, ⟨expr⟩, r6)
        | _ => none

def scanAssigns : Nat → List Char → List (String × String)
  | 0, _ => []
  | _, [] => []
  | fuel + 1, c :: rest =>
    match tryAssignAt (c :: rest) with
    | some (ov, expr, after) => (ov, expr) :: scanAssigns fuel after
    | none => scanAssigns fuel rest

/-- `[a-zA-Z_]`. -/
def isIdentStart (c : Char) : Bool := c.isAlpha || c == '_'

/-- `re.findall(r'\b[a-zA-Z_]\w*(?:\[\d+\])?', ...)` (with `boundary`) or
the same pattern without the leading `\b`. -/
def scanIdents (boundary : Bool) :
    Nat → Option Char → List Char → List (List Char)
  | 0, _, _ => []
  | _, _, [] => []
  | fuel + 1, prev, c :: rest =>
    let boundOk :=
      match prev with
      | some p => !(isWordChar p)
      | none => true
    if isIdentStart c && (!boundary || boundOk) then
      let nm := (c :: rest).takeWhile isWordChar
      let r1 := (c :: rest).dropWhile isWordChar
      let ir := matchOptIndex r1
      (nm ++ ir.1) :: scanIdents boundary fuel ((nm ++ ir.1).getLast?) ir.2
    else scanIdents boundary fuel (some c) rest

/-- Order-preserving de-duplication, modelling `list(set(variables))` (whose
iteration order Python does not fix; first-occurrence order is used here). -/
def dedupFirstAux (seen : List (List Char)) :
    List (List Char) → List (List Char)
  | [] => []
  | x :: rest =>
    if x ∈ seen then dedupFirstAux seen rest
    else x :: dedupFirstAux (x :: seen) rest

def dedupFirst (l : List (List Char)) : List (List Char) :=
  dedupFirstAux [] l

/-- `VerilogParser._parse_expression`: classify the assign right-hand side
by its operators and extract the identifier operands. -/
def parse_expression (expression0 : List Char) : List String × String :=
  let expression1 := pyStrip expression0
  let original := expression1
  let has_not := expression1.contains '!' || expression1.contains '~'
  let expression2 :=
    if has_not then expression1.filter (fun c => !(c == '!' || c == '~'))
    else expression1
  let expression := expression2.filter (fun c => !(c == '(' || c == ')'))
  let gate_type :=
    if expression.contains '^' &&
        (expression.contains '&' || expression.contains '|') then "complex"
    else if expression.contains '&' && expression.contains '|' then "and"
    else if expression.contains '^' then
      (if has_not && !(original.contains '&' || original.contains '|') then
        "xnor"
      else "xor")
    else if expression.contains '&' then "and"
    else if expression.contains '|' then
      (if has_not && !(original.contains '&') then "nor" else "or")
    else if has_not then "not"
    else "unknown"
  let vars := scanIdents true (original.length + 1) none original
  let inputs0 := dedupFirst vars
  let inputs :=
    if inputs0.isEmpty then
      dedupFirst (scanIdents false (original.length + 1) none original)
    else inputs0
  (inputs.map (fun l => (⟨l⟩ : String)), gate_type)

/-! ### Port parsing -/

def dirKeywords : List String := ["input", "output", "inout"]

def toNatDigitsL (l : List Char) : Nat :=
  l.foldl (fun a c => a * 10 + (c.toNat - 48)) 0

/-- `range(lo, hi + 1)`. -/
def rangeList (lo hi : Nat) : List Nat :=
  (List.range (hi + 1 - lo)).map (fun i => lo + i)

/-- One attempt of `\b(input|output|inout)\b` at the current position,
given the previous character (for the leading boundary). -/
def tryKeywordAt (prev : Option Char) (l : List Char) :
    Option (String × List Char) :=
  if (match prev with | some p => isWordChar p | none => false) then none
  else
    dirKeywords.findSome? (fun kw =>
      match matchPrefix kw.data l with
      | some r =>
        match r.head? with
        | some c => if isWordChar c then none else some (kw, r)
        | none => some (kw, r)
      | none => none)

/-- `re.split(r'\b(input|output|inout)\b', ports_str)`, keeping the
keyword tokens. -/
def splitDirKeywords : Nat → Option Char → List Char → List Char →
    List (List Char)
  | 0, _, accSeg, l => [accSeg.reverse ++ l]
  | _ + 1, _, accSeg, [] => [accSeg.reverse]
  | fuel + 1, prev, accSeg, c :: rest =>
    match tryKeywordAt prev (c :: rest) with
    | some (kw, after) =>
      accSeg.reverse :: kw.data ::
        splitDirKeywords fuel kw.data.getLast? [] after
    | none => splitDirKeywords fuel (some c) (c :: accSeg) rest

/-- `rstrip(',')`. -/
def rstripComma (l : List Char) : List Char :=
  (l.reverse.dropWhile (fun c => c == ',')).reverse

/-- `re.match(r'\[(\d+):(\d+)\]\s*(\w+)', port_item)`. -/
def matchHeaderArray (l : List Char) : Option (Nat × Nat × String) :=
  match l with
  | '[' :: r1 =>
    match takeWhile1 Char.isDigit r1 with
    | none => none
    | some (d1, r2) =>
      match r2 with
      | ':' :: r3 =>
        match takeWhile1 Char.isDigit r3 with
        | none => none
        | some (d2, r4) =>
          match r4 with
          | ']' :: r5 =>
            match takeWhile1 isWordChar (r5.dropWhile pyIsSpace) with
            | none => none
            | some (nm, _) => some (toNatDigitsL d1, toNatDigitsL d2, ⟨nm⟩)
          | _ => none
      | _ => none
  | _ => none

/-- Process one comma-separated port item of a keyword-split segment. -/
def addPortItem (dir : String) (ports : List (String × String))
    (item : List Char) : List (String × String) :=
  match matchHeaderArray item with
  | some (msb, lsb, nm) =>
    let withIdx := (rangeList (Nat.min msb lsb) (Nat.max msb lsb)).foldl
      (fun ps i => dictSetStr ps (arrayKeyName nm i) dir) ports
    dictSetStr withIdx nm dir
  | none =>
    match takeWhile1 isWordChar item with
    | some (nm, _) => dictSetStr ports (⟨nm⟩ : String) dir
    | none => ports

/-- The optional `(?:\[(\d+):(\d+)\])?` group of the fallback pattern. -/
def tryRangeGroup (l : List Char) : Option ((Nat × Nat) × List Char) :=
  match l with
  | '[' :: r1 =>
    match takeWhile1 Char.isDigit r1 with
    | none => none
    | some (d1, r2) =>
      match r2 with
      | ':' :: r3 =>
        match takeWhile1 Char.isDigit r3 with
        | none => none
        | some (d2, r4) =>
          match r4 with
          | ']' :: r5 => some ((toNatDigitsL d1, toNatDigitsL d2), r5)
          | _ => none
      | _ => none
  | _ => none

/-- One attempt of the fallback pattern
`(input|output|inout)\s+(?:\[(\d+):(\d+)\])?\s*(\w+)` (no word
boundaries). -/
def tryFallbackPortAt (l : List Char) :
    Option ((String × Option (Nat × Nat) × String) × List Char) :=
  match dirKeywords.findSome? (fun kw =>
      (matchPrefix kw.data l).map (fun r => (kw, r))) with
  | none => none
  | some (kw, r1) =>
    match takeWhile1 pyIsSpace r1 with
    | none => none
    | some (_, r2) =>
      let rg := tryRangeGroup r2
      let r3 := match rg with | some (_, rr) => rr | none => r2
      match takeWhile1 isWordChar (r3.dropWhile pyIsSpace) with
      | none => none
      | some (nm, r4) =>
        some ((kw, rg.map (fun p => p.1), ⟨nm⟩), r4)

def scanFallbackPorts : Nat → List Char →
    List (String × Option (Nat × Nat) × String)
  | 0, _ => []
  | _, [] => []
  | fuel + 1, c :: rest =>
    match tryFallbackPortAt (c :: rest) with
    | some (m, after) => m :: scanFallbackPorts fuel after
    | none => scanFallbackPorts fuel rest

/-- `VerilogParser._parse_ports` (header port list). -/
def parse_ports (ports_str : List Char) : List (String × String) :=
  let tokens := splitDirKeywords (ports_str.length + 1) none [] ports_str
  let first := (tokens.foldl (fun st token =>
    let (ports, current) := st
    let tokenS := pyStrip token
    if tokenS = "input".data ∨ tokenS = "output".data ∨
        tokenS = "inout".data then
      (ports, some (⟨tokenS⟩ : String))
    else
      match current with
      | some dir =>
        if tokenS = [] then (ports, current)
        else
          let port_list := pyStrip (rstripComma tokenS)
          let port_items :=
            ((port_list.splitOn ',').map pyStrip).filter
              (fun p => !p.isEmpty)
          (port_items.foldl (addPortItem dir) ports, current)
      | none => (ports, current))
    (([] : List (String × String)), (none : Option String))).1
  (scanFallbackPorts (ports_str.length + 1) ports_str).foldl
    (fun ports m =>
      let (dir, rg, nm) := m
      match rg with
      | some (msb, lsb) =>
        let withIdx := (rangeList (Nat.min msb lsb)
            (Nat.max msb lsb)).foldl
          (fun ps i => dictSetStr ps (arrayKeyName nm i) dir) ports
        dictSetStr withIdx nm dir
      | none => dictSetStr ports nm dir)
    first

/-- Index of the first occurrence of `needle` in `hay` (Python
`str.find`). -/
def findSubstrFrom (needle : List Char) : Nat → Nat → List Char → Option Nat
  | 0, _, _ => none
  | fuel + 1, pos, l =>
    match matchPrefix needle l with
    | some _ => some pos
    | none =>
      match l with
      | [] => none
      | _ :: rest => findSubstrFrom needle fuel (pos + 1) rest

/-- `code.find(needle, start)`: the character index, or `none`. -/
def pyFind (code : List Char) (needle : List Char) (start : Nat) :
    Option Nat :=
  (findSubstrFrom needle (code.length + 1 - start) start
    (code.drop start))

/-- One attempt of the body-port pattern
`(input|output|inout)\s+([^;]+);`. -/
def tryBodyPortAt (l : List Char) :
    Option ((String × List Char) × List Char) :=
  match dirKeywords.findSome? (fun kw =>
      (matchPrefix kw.data l).map (fun r => (kw, r))) with
  | none => none
  | some (kw, r1) =>
    match takeWhile1 pyIsSpace r1 with
    | none => none
    | some (_, r2) =>
      match takeWhile1 (fun c => c != ';') r2 with
      | none => none
      | some (cap, r3) =>
        match r3 with
        | ';' :: r4 => some ((kw, cap), r4)
        | _ => none

def scanBodyPorts : Nat → List Char → List (String × List Char)
  | 0, _ => []
  | _, [] => []
  | fuel + 1, c :: rest =>
    match tryBodyPortAt (c :: rest) with
    | some (m, after) => m :: scanBodyPorts fuel after
    | none => scanBodyPorts fuel rest

/-- `VerilogParser._parse_ports_from_body`. -/
def parse_ports_from_body (code : List Char) : List (String × String) :=
  match pyFind code "module".data 0 with
  | none => []
  | some module_start =>
    match pyFind code ";".data module_start with
    | none => []
    | some body_start =>
      let body_end := (pyFind code "endmodule".data body_start).getD
        code.length
      let module_body := (code.take body_end).drop body_start
      (scanBodyPorts (module_body.length + 1) module_body).foldl
        (fun ports m =>
          let (dir, port_list) := m
          ((port_list.splitOn ',').map pyStrip).foldl (fun ports nm =>
            if nm.contains '[' && nm.contains ']' then
              let base := nm.takeWhile (fun c => c != '[')
              dictSetStr (dictSetStr ports (⟨nm⟩ : String) dir)
                (⟨base⟩ : String) dir
            else dictSetStr ports (⟨nm⟩ : String) dir) ports)
        []

/-! ### Wire declarations -/

/-- `\w+(?:\[\d+:\d+\])?`: a wire name with optional range suffix. -/
def wireName (l : List Char) : Option (List Char × List Char) :=
  match takeWhile1 isWordChar l with
  | none => none
  | some (nm, r1) =>
    match r1 with
    | '[' :: r2 =>
      match takeWhile1 Char.isDigit r2 with
      | none => some (nm, r1)
      | some (d1, r3) =>
        match r3 with
        | ':' :: r4 =>
          match takeWhile1 Char.isDigit r4 with
          | none => some (nm, r1)
          | some (d2, r5) =>
            match r5 with
            | ']' :: r6 =>
              some (nm ++ '[' :: (d1 ++ ':' :: d2 ++ [']']), r6)
            | _ => some (nm, r1)
        | _ => some (nm, r1)
    | _ => some (nm, r1)

/-- The greedy-with-backtracking repetition `(?:,(\w+(?:\[\d+:\d+\])?))*`
followed by `\s*;`: prefer the longest repetition whose tail matches,
returning the last captured name (regex group semantics) and the
remainder. -/
def tryWireRepsFrom (lastCap : Option (List Char)) (l : List Char) :
    Nat → Option (Option (List Char) × List Char)
  | 0 => none
  | fuel + 1 =>
    let ext :=
      match l with
      | ',' :: r1 =>
        match wireName r1 with
        | some (nm, r2) => tryWireRepsFrom (some nm) r2 fuel
        | none => none
      | _ => none
    match ext with
    | some res => some res
    | none =>
      match afterSpacesSemi l with
      | some r => some (lastCap, r)
      | none => none

/-- One attempt of the wire pattern
`wire\s+(\w+(?:\[\d+:\d+\])?)\s*(?:,(\w+(?:\[\d+:\d+\])?))*\s*;`
(the repeated group captures only its last iteration, as in `re`). -/
def tryWireAt (l : List Char) : Option ((String × String) × List Char) :=
  match matchPrefix "wire".data l with
  | none => none
  | some r1 =>
    match takeWhile1 pyIsSpace r1 with
    | none => none
    | some (_, r2) =>
      match wireName r2 with
      | none => none
      | some (first, r3) =>
        match tryWireRepsFrom none (r3.dropWhile pyIsSpace) (r3.length + 1)
            with
        | none => none
        | some (lastCap, rest) =>
          some (((⟨first⟩ : String), (⟨lastCap.getD []⟩ : String)), rest)

def scanWires : Nat → List Char → List (String × String)
  | 0, _ => []
  | _, [] => []
  | fuel + 1, c :: rest =>
    match tryWireAt (c :: rest) with
    | some (m, after) => m :: scanWires fuel after
    | none => scanWires fuel rest

/-- `VerilogParser._parse_net_declarations`. -/
def parse_net_declarations (module_body : List Char) :
    List (String × LogicValue) :=
  (scanWires (module_body.length + 1) module_body).foldl (fun nets m =>
    let nets1 := dictSet nets m.1 LogicValue.X
    let additional :=
      if m.2.data.isEmpty then [] else (m.2.data.splitOn ',')
    additional.foldl (fun nets w =>
      let ws := pyStrip w
      if ws.isEmpty then nets
      else dictSet nets (⟨ws⟩ : String) LogicValue.X) nets1)
    []

/-! ### Gate, module-instance and assign extraction -/

/-- The priority-ordered gate patterns of `_parse_gate_instances`. -/
def gate_patterns : List (String × String) :=
  [("XNOR", "xnor"), ("XOR", "xor"), ("NAND", "nand"), ("NOR", "nor"),
   ("AND", "and"), ("OR", "or"), ("NOT", "not"), ("INV", "not"),
   ("MUX", "mux"), ("MUX2", "mux2"), ("MUX4", "mux4"),
   ("HA", "ha"), ("FA", "fa"), ("HS", "hs"), ("FS", "fs"),
   ("xnor", "xnor"), ("xor", "xor"), ("nand", "nand"), ("nor", "nor"),
   ("and", "and"), ("or", "or"), ("not", "not"),
   ("ha", "ha"), ("fa", "fa"), ("hs", "hs"), ("fs", "fs")]

/-- `VerilogParser._parse_gate_instances` (threading the shared seen-set). -/
def parse_gate_instances (module_body : List Char) (seen0 : List String) :
    List Gate × List String :=
  gate_patterns.foldl (fun acc pat =>
    (reFindAllInst pat.1 isWordChar module_body).foldl (fun acc2 m =>
      let (gates2, seen2) := acc2
      if m.1 ∈ seen2 then (gates2, seen2)
      else
        let conns := parse_gate_connections m.2.data
        let g : Gate :=
          { name := m.1, gate_type := pat.2, inputs := conns.1,
            outputs := conns.2.1, port_map := conns.2.2 }
        (gates2 ++ [g], seen2 ++ [m.1])) acc)
    ([], seen0)

/-- The module-type → gate-type table of `_parse_module_instances`. -/
def gate_type_mapping : List (String × String) :=
  [("full_adder", "fa"), ("FullAdder", "fa"), ("half_adder", "ha"),
   ("HalfAdder", "ha"), ("full_subtractor", "fs"), ("FullSubtractor", "fs"),
   ("half_subtractor", "hs"), ("HalfSubtractor", "hs"), ("mux2", "mux2"),
   ("Mux", "mux2"), ("mux4", "mux4")]

/-- `VerilogParser._parse_module_instances`. -/
def parse_module_instances (module_body : List Char) (seen0 : List String) :
    List Gate × List String :=
  (scanModInsts (module_body.length + 1) module_body).foldl (fun acc m =>
    let (ty, nm, cap) := m
    let (gates, seen) := acc
    if nm ∈ seen then (gates, seen)
    else if ty ∈ ["and", "or", "not", "nand", "nor", "xor", "xnor"] then
      (gates, seen)
    else
      let conns := parse_gate_connections cap.data
      let mapped := (((gate_type_mapping.find? (fun p => p.1 == ty)).map
        (fun p => p.2)).getD ty)
      let g : Gate :=
        { name := nm, gate_type := mapped, inputs := conns.1,
          outputs := conns.2.1, port_map := conns.2.2 }
      (gates ++ [g], seen ++ [nm]))
    ([], seen0)

/-- `VerilogParser._parse_assign_statements`. -/
def parse_assign_statements (module_body : List Char) (seen0 : List String) :
    List Gate × List String :=
  (scanAssigns (module_body.length + 1) module_body).foldl (fun acc m =>
    let (gates, seen) := acc
    if m.1 ∈ seen then (gates, seen)
    else
      let pe := parse_expression m.2.data
      let g : Gate :=
        { name := "assign_" ++ m.1, gate_type := pe.2, inputs := pe.1,
          outputs := [m.1], port_map := [] }
      (gates ++ [g], seen ++ [m.1]))
    ([], seen0)

/-- `VerilogParser._extract_gates_and_nets`: locate the module body (taken
to the end of the text when `endmodule` is missing) and extract gates,
module instances, assigns and wire declarations from it. -/
def extract_gates_and_nets (code : List Char) (module_name : String) :
    List Gate × List (String × LogicValue) :=
  match pyFind code ("module ".data ++ module_name.data) 0 with
  | none => ([], [])
  | some module_start =>
    let body_start :=
      match pyFind code "begin".data module_start with
      | some i => i
      | none => ((pyFind code ";".data module_start).map (fun i => i + 1)).getD 0
    let body_end := (pyFind code "endmodule".data body_start).getD code.length
    let module_body := (code.take body_end).drop body_start
    let g1 := parse_gate_instances module_body []
    let g2 := parse_module_instances module_body g1.2
    let g3 := parse_assign_statements module_body g2.2
    (g1.1 ++ g2.1 ++ g3.1, parse_net_declarations module_body)

/-- `VerilogParser._create_module_from_string` (the caught-exception path
is unreachable in this total model). -/
def create_module_from_string (name : String) (ports_str : List Char)
    (code : List Char) : Module :=
  let ports0 := parse_ports ports_str
  let ports := (parse_ports_from_body code).foldl
    (fun ps p => dictSetStr ps p.1 p.2) ports0
  let gn := extract_gates_and_nets code name
  { name := name, ports := ports, gates := gn.1, nets := gn.2 }

/-- The name class `[^\s(]+` of the module-header pattern. -/
def headerNameCls (c : Char) : Bool := !(pyIsSpace c) && c != '('

/-- `VerilogParser._extract_modules_from_code` /
`_extract_modules`: every `module <name> ( <ports> ) ;` occurrence yields a
module built from its header ports and body. -/
def extract_modules (code : String) : List Module :=
  (reFindAllInst "module" headerNameCls code.data).map (fun m =>
    create_module_from_string m.1 m.2.data code.data)

/-! ### Claim C5 -/

def c5_text : String :=
  "module m(input a, input b, output y); and G1(a,b,y); endmodule"

/-- **C5 counterexample.** Extracting
`module m(input a, input b, output y); and G1(a,b,y); endmodule` does *not*
yield a gate `G1` with input list `[a, b]` and output list `[y]`: the
positional connections are all appended to the input list and no output is
inferred. -/
theorem C5_counterexample_positional_connections :
    ¬ ((extract_modules c5_text).map
        (fun m => m.gates.map
          (fun g => (g.name, g.gate_type, g.inputs, g.outputs))) =
      [[("G1", "and", ["a", "b"], ["y"])]]) := by decide

/-- **C5 (amended).** Extracting
`module m(input a, input b, output y); and G1(a,b,y); endmodule` yields
exactly one Module whose ports map `a` to input, `b` to input and `y` to
output, and exactly one Gate named `G1` of type `and` — whose positional
connections are all classified as inputs, giving input list `[a, b, y]` and
an empty output list. -/
theorem C5_extraction_example_amended :
    extract_modules c5_text =
      [{ name := "m",
         ports := [("a", "input"), ("b", "input"), ("y", "output")],
         gates := [{ name := "G1", gate_type := "and",
                     inputs := ["a", "b", "y"], outputs := [],
                     port_map := [] }],
         nets := [] }] := by decide

/-! ### Claim C9 -/

def c9_text_no_gates : String := "module m(input a, output y);"

def c9_text_with_gate : String := "module m(input a, output y); and G1(a,y);"

/-- **C9 counterexample.** A module text with a header but no `endmodule`
does *not* always yield an empty gate list: when gate instantiations follow
the header, the body is taken to the end of the text and the gates are
extracted. -/
theorem C9_counterexample_missing_endmodule :
    ¬ ((extract_modules c9_text_with_gate).map Module.gates = [[]]) := by
  decide

/-- **C9 (amended).** A module text with a `module <name> ( ... ) ;` header
but no `endmodule` terminator still extracts successfully into a Module
(the body extends to the end of the text): the gate list and net mapping
are empty exactly when nothing parseable follows the header, and otherwise
contain whatever gates the trailing text declares. -/
theorem C9_missing_endmodule_amended :
    extract_modules c9_text_no_gates =
      [{ name := "m", ports := [("a", "input"), ("y", "output")],
         gates := [], nets := [] }] ∧
    (extract_modules c9_text_with_gate).length = 1 ∧
    (extract_modules c9_text_with_gate).map
        (fun m => m.gates.map
          (fun g => (g.name, g.gate_type, g.inputs, g.outputs))) =
      [[("G1", "and", ["a", "y"], [])]] := by
  refine ⟨by decide, by decide, by decide⟩

end VV
